import Mathlib

/-! LSM maintenance manager (`src/lsm/lsm_manager.c`).

A shallow embedding of the work queues, the chunk selection for flushing, the
manager thread's inspection pass and the worker loop of `lsm_manager.c`,
followed by theorems about them.

Conventions of the embedding:

* a `STAILQ`/`TAILQ` is a `List`, head first; `STAILQ_INSERT_TAIL` appends,
  `STAILQ_REMOVE_HEAD` drops the head;
* a pointer to a tree is a natural number (`TreePtr`); the open trees of the
  connection (`conn->lsmqh`) are the pairs of a pointer and the tree it points to;
* an `int` return value is an `Int`, `0` meaning success;
* functions that are called but not defined in `lsm_manager.c` (allocation, tree
  lock, switch, checkpoint, merge) are parameters giving their return values;
* the spin locks protect single list operations and have no sequential effect.
-/

namespace LsmManager

/-! ## Flags -/

/-- Modelled from the spec: the work kinds are "representable as disjoint bits";
the values come from a header (`flags.h`) that is not part of the sources. -/
def WT_LSM_WORK_BLOOM : Nat := 1

/-- Modelled from the spec: second of the four disjoint work-kind bits. -/
def WT_LSM_WORK_FLUSH : Nat := 2

/-- Modelled from the spec: third of the four disjoint work-kind bits. -/
def WT_LSM_WORK_MERGE : Nat := 4

/-- Modelled from the spec: fourth of the four disjoint work-kind bits. -/
def WT_LSM_WORK_SWITCH : Nat := 8

/-- The macro `FLD_ISSET(field, mask)`, that is `((field) & (mask))` read as a
truth value. `F_ISSET(p, mask)` is `FLD_ISSET((p)->flags, mask)`. -/
def FLD_ISSET (field mask : Nat) : Bool := (field &&& mask) != 0

/-! ## Data -/

/-- A pointer to a `WT_LSM_TREE`. -/
abbrev TreePtr := Nat

/-- The fields of `WT_LSM_WORK_UNIT` used by the manager (the queue link `q` is the
position in the list). -/
structure WT_LSM_WORK_UNIT where
  flags : Nat
  lsm_tree : TreePtr
  deriving DecidableEq, Repr

/-- A chunk: `ondisk` is `F_ISSET(chunk, WT_LSM_CHUNK_ONDISK)`, `refcnt` its
reference count. -/
structure WT_LSM_CHUNK where
  ondisk : Bool
  refcnt : Nat
  deriving DecidableEq, Repr

/-- A tree: `working` is `F_ISSET(lsm_tree, WT_LSM_TREE_WORKING)`; `chunk` holds
`chunk[0] .. chunk[nchunks-1]`, the valid part of the chunk array. -/
structure WT_LSM_TREE where
  working : Bool
  merge_throttle : Int
  chunk : List WT_LSM_CHUNK
  deriving DecidableEq, Repr

/-- The field `nchunks`: the number of valid entries of the chunk array. -/
def WT_LSM_TREE.nchunks (t : WT_LSM_TREE) : Nat := t.chunk.length

/-- The queues of `WT_LSM_MANAGER` and its count of workers. -/
structure WT_LSM_MANAGER where
  switchqh : List WT_LSM_WORK_UNIT
  appqh : List WT_LSM_WORK_UNIT
  managerqh : List WT_LSM_WORK_UNIT
  lsm_workers : Nat
  deriving DecidableEq, Repr

/-- How a function ends: it returns, a `WT_ASSERT` fails, or it reads memory that
is not a valid object (past the chunk array, or a tree that is not open). -/
inductive Outcome (α : Type) where
  | ok : α → Outcome α
  | assertFailed : Outcome α
  | invalidRead : Outcome α
  deriving DecidableEq, Repr

/-! ## The queues -/

/-- The function `__lsm_pop_entry`: the return value, `*entryp`, and the manager
afterwards. -/
def __lsm_pop_entry (type : Nat) (manager : WT_LSM_MANAGER) :
    Outcome (Int × Option WT_LSM_WORK_UNIT × WT_LSM_MANAGER) :=
  if type = WT_LSM_WORK_SWITCH then
    if manager.switchqh.isEmpty then .ok (0, none, manager)
    else
      match manager.switchqh with
      | [] => .ok (0, none, manager)
      | entry :: rest => .ok (0, some entry, { manager with switchqh := rest })
  else if type = WT_LSM_WORK_MERGE then
    if manager.managerqh.isEmpty then .ok (0, none, manager)
    else
      match manager.managerqh with
      | [] => .ok (0, none, manager)
      | entry :: rest =>
        if FLD_ISSET entry.flags type then
          .ok (0, some entry, { manager with managerqh := rest })
        else .ok (0, none, manager)
  else
    if !(FLD_ISSET type WT_LSM_WORK_BLOOM || FLD_ISSET type WT_LSM_WORK_FLUSH) then
      .assertFailed
    else if manager.appqh.isEmpty then .ok (0, none, manager)
    else
      match manager.appqh with
      | [] => .ok (0, none, manager)
      | entry :: rest =>
        if FLD_ISSET type entry.flags then
          .ok (0, some entry, { manager with appqh := rest })
        else .ok (0, none, manager)

/-- The function `__wt_lsm_push_entry`; `calloc` is the return value of
`__wt_calloc_def`. -/
def __wt_lsm_push_entry (calloc : Int) (type : Nat) (lsm_tree : TreePtr)
    (manager : WT_LSM_MANAGER) : Int × WT_LSM_MANAGER :=
  if calloc ≠ 0 then (calloc, manager)
  else
    let entry : WT_LSM_WORK_UNIT := { flags := type, lsm_tree := lsm_tree }
    if type = WT_LSM_WORK_SWITCH then
      (0, { manager with switchqh := manager.switchqh ++ [entry] })
    else if type = WT_LSM_WORK_BLOOM ∨ type = WT_LSM_WORK_FLUSH then
      (0, { manager with appqh := manager.appqh ++ [entry] })
    else if type = WT_LSM_WORK_MERGE then
      (0, { manager with managerqh := manager.managerqh ++ [entry] })
    else (0, manager)

/-! ## Chunk selection for a flush -/

/-- The loop `for (i = 0; i < nchunks && F_ISSET(chunk[i], ONDISK); i++)` of
`__lsm_get_chunk_to_flush`, started at index `i` with `chunks` the entries
`chunk[i] .. chunk[nchunks-1]`: the value of `i` when the loop ends. -/
def scanOnDisk : List WT_LSM_CHUNK → Nat → Nat
  | [], i => i
  | c :: rest, i => if c.ondisk then scanOnDisk rest (i + 1) else i

/-- The statement `WT_ATOMIC_ADD(lsm_tree->chunk[i]->refcnt, 1)`. -/
def pinChunk (t : WT_LSM_TREE) (i : Nat) : WT_LSM_TREE :=
  { t with chunk := t.chunk.modify (fun c => { c with refcnt := c.refcnt + 1 }) i }

/-- The function `__lsm_get_chunk_to_flush`; `lock` and `unlock` are the return
values of `__wt_lsm_tree_lock` and `__wt_lsm_tree_unlock`. The result is the return
value, `*chunkp` as the index of the chunk in the chunk array (`none` for `NULL`),
and the tree afterwards. -/
def __lsm_get_chunk_to_flush (lock unlock : Int) (lsm_tree : WT_LSM_TREE) :
    Outcome (Int × Option Nat × WT_LSM_TREE) :=
  if lock ≠ 0 then .ok (lock, none, lsm_tree)
  else if !lsm_tree.working then .ok (unlock, none, lsm_tree)
  else
    let i := scanOnDisk lsm_tree.chunk 0
    match lsm_tree.chunk[i]? with
    | none => .invalidRead
    | some c =>
      if !c.ondisk then
        if i < lsm_tree.nchunks then
          if unlock ≠ 0 then .ok (unlock, some i, pinChunk lsm_tree i)
          else .ok (0, some i, pinChunk lsm_tree i)
        else .assertFailed
      else
        if unlock ≠ 0 then .ok (unlock, none, lsm_tree)
        else .ok (0, none, lsm_tree)

/-! ## The manager thread -/

/-- The fields of `WT_CONNECTION_IMPL` used by the manager: `server_run` is
`F_ISSET(conn, WT_CONN_SERVER_RUN)`, `lsmqh` the open trees. -/
structure WT_CONNECTION_IMPL where
  server_run : Bool
  lsmqh : List (TreePtr × WT_LSM_TREE)
  lsm_manager : WT_LSM_MANAGER
  deriving DecidableEq, Repr

/-- The result of walking the open trees: `ret`, `queued` and the manager. -/
structure PassResult where
  ret : Int
  queued : Nat
  manager : WT_LSM_MANAGER
  deriving DecidableEq, Repr

/-- The loop `TAILQ_FOREACH(next_tree, &conn->lsmqh, q)` of `__lsm_worker_manager`
over the trees still to visit. `calloc n` is the return value of the `n`-th call of
`__wt_calloc_def` in the pass (counted from `0`); a call that fails ends the walk
(`WT_ERR`). -/
def inspectTrees (calloc : Nat → Int) :
    List (TreePtr × WT_LSM_TREE) → Nat → WT_LSM_MANAGER → PassResult
  | [], queued, manager => { ret := 0, queued := queued, manager := manager }
  | (p, next_tree) :: rest, queued, manager =>
    if next_tree.nchunks > 1 ∧ next_tree.merge_throttle > 0 then
      if calloc queued ≠ 0 then
        { ret := calloc queued, queued := queued + 1, manager := manager }
      else
        let merge_op : WT_LSM_WORK_UNIT := { flags := 0 ||| WT_LSM_WORK_MERGE, lsm_tree := p }
        inspectTrees calloc rest (queued + 1)
          { manager with managerqh := manager.managerqh ++ [merge_op] }
    else inspectTrees calloc rest queued manager

/-- One inspection pass of `__lsm_worker_manager`: the body of its `while` loop when
some tree is open, from `queued = 0` to the end of `TAILQ_FOREACH`. -/
def inspectionPass (calloc : Nat → Int) (trees : List (TreePtr × WT_LSM_TREE))
    (manager : WT_LSM_MANAGER) : PassResult :=
  inspectTrees calloc trees 0 manager

/-! ## The worker -/

/-- The fields `id` and `flags` of `WT_LSM_WORKER_ARGS` (the worker's cookie). -/
structure WT_LSM_WORKER_ARGS where
  id : Nat
  flags : Nat
  deriving DecidableEq, Repr

/-- The three queues of the manager. -/
inductive Queue where
  | switch
  | app
  | manager
  deriving DecidableEq, Repr

/-- What a worker does that is visible outside of it, in the order it does it. -/
inductive Event where
  /-- `__lsm_pop_entry` gave the worker `entry`, removed from the queue `q` -/
  | pop (q : Queue) (entry : WT_LSM_WORK_UNIT)
  /-- a call of `__wt_lsm_tree_switch` and its return value -/
  | tree_switch (tree : TreePtr) (ret : Int)
  /-- a call of `__lsm_get_chunk_to_flush`, its return value and `*chunkp` -/
  | get_chunk_to_flush (tree : TreePtr) (ret : Int) (chunk : Option Nat)
  /-- a call of `__wt_lsm_checkpoint_chunk` and its return value -/
  | checkpoint_chunk (tree : TreePtr) (chunk : Option Nat) (ret : Int)
  /-- a call of `__wt_lsm_merge` with the worker's id, and its return value -/
  | merge (tree : TreePtr) (id : Nat) (ret : Int)
  /-- a call of `__wt_err` with the error `ret` -/
  | err (ret : Int)
  /-- a call of `__wt_sleep(0, usec)` -/
  | sleep (usec : Nat)
  deriving DecidableEq, Repr

/-- The functions the worker calls that are defined outside `lsm_manager.c`. Each
is given the number of events so far (so that two calls may differ), its arguments
and, where it works on the trees, the open trees; it gives its return value and the
open trees afterwards. None of them touches the queues of the manager. -/
structure Externals where
  tree_switch : Nat → TreePtr → List (TreePtr × WT_LSM_TREE) →
    Int × List (TreePtr × WT_LSM_TREE)
  tree_lock : Nat → TreePtr → Int
  tree_unlock : Nat → TreePtr → Int
  checkpoint_chunk : Nat → TreePtr → Option Nat → List (TreePtr × WT_LSM_TREE) →
    Int × List (TreePtr × WT_LSM_TREE)
  merge : Nat → TreePtr → Nat → List (TreePtr × WT_LSM_TREE) →
    Int × List (TreePtr × WT_LSM_TREE)

/-- The connection and the events so far. -/
structure WorkerState where
  conn : WT_CONNECTION_IMPL
  trace : List Event
  deriving DecidableEq, Repr

/-- How the body of the worker's `while` loop ends. -/
inductive LoopCtl where
  /-- the end of the body is reached with `ret = 0`: the loop test is made again -/
  | next
  /-- a `WT_ERR` jumped to `err` with this value of `ret`: the loop is left -/
  | error (ret : Int)
  /-- a `WT_ASSERT` failed -/
  | assertFailed
  /-- memory was read that is not a valid object -/
  | invalidRead
  /-- the steps allowed to the loop over the switch queue did not suffice -/
  | running
  deriving DecidableEq, Repr

/-- The tree a pointer points to, when it is one of the open trees. -/
def derefTree (p : TreePtr) : List (TreePtr × WT_LSM_TREE) → Option WT_LSM_TREE
  | [] => none
  | (q, t) :: rest => if q = p then some t else derefTree p rest

/-- Store `t` in the tree that `p` points to. -/
def storeTree (p : TreePtr) (t : WT_LSM_TREE) :
    List (TreePtr × WT_LSM_TREE) → List (TreePtr × WT_LSM_TREE)
  | [] => []
  | (q, old) :: rest => if q = p then (q, t) :: rest else (q, old) :: storeTree p t rest

/-- Record an event. -/
def WorkerState.log (st : WorkerState) (e : Event) : WorkerState :=
  { st with trace := st.trace ++ [e] }

/-- Replace the manager of the connection. -/
def WorkerState.setManager (st : WorkerState) (manager : WT_LSM_MANAGER) : WorkerState :=
  { st with conn := { st.conn with lsm_manager := manager } }

/-- Replace the open trees of the connection. -/
def WorkerState.setTrees (st : WorkerState) (trees : List (TreePtr × WT_LSM_TREE)) :
    WorkerState :=
  { st with conn := { st.conn with lsmqh := trees } }

/-- The loop `while (F_ISSET(cookie, WT_LSM_WORK_SWITCH) && (ret = __lsm_pop_entry(
session, WT_LSM_WORK_SWITCH, &entry)) == 0 && entry != NULL)` of `__lsm_worker`,
for at most the given number of tests of its condition. It ends with `next` when
the loop is left with `ret = 0` and with `error ret` when the pop failed. -/
def workerSwitches (ext : Externals) (cookie : WT_LSM_WORKER_ARGS) :
    Nat → WorkerState → LoopCtl × WorkerState
  | 0, st => (.running, st)
  | fuel + 1, st =>
    if !FLD_ISSET cookie.flags WT_LSM_WORK_SWITCH then (.next, st)
    else
      match __lsm_pop_entry WT_LSM_WORK_SWITCH st.conn.lsm_manager with
      | .assertFailed => (.assertFailed, st)
      | .invalidRead => (.invalidRead, st)
      | .ok (ret, none, manager) =>
        if ret ≠ 0 then (.error ret, st.setManager manager)
        else (.next, st.setManager manager)
      | .ok (ret, some entry, manager) =>
        if ret ≠ 0 then (.error ret, st.setManager manager)
        else
          let st1 := (st.setManager manager).log (.pop .switch entry)
          let r := ext.tree_switch st1.trace.length entry.lsm_tree st1.conn.lsmqh
          let st2 := (st1.setTrees r.2).log (.tree_switch entry.lsm_tree r.1)
          if r.1 ≠ 0 then workerSwitches ext cookie fuel (st2.log (.err r.1))
          else workerSwitches ext cookie fuel st2

/-- The third part of the body of the loop of `__lsm_worker`: a merge. -/
def workerMerge (ext : Externals) (cookie : WT_LSM_WORKER_ARGS) (st : WorkerState) :
    LoopCtl × WorkerState :=
  if !FLD_ISSET cookie.flags WT_LSM_WORK_MERGE then (.next, st)
  else
    match __lsm_pop_entry WT_LSM_WORK_MERGE st.conn.lsm_manager with
    | .assertFailed => (.assertFailed, st)
    | .invalidRead => (.invalidRead, st)
    | .ok (ret, none, manager) =>
      if ret ≠ 0 then (.error ret, st.setManager manager)
      else (.next, st.setManager manager)
    | .ok (ret, some entry, manager) =>
      if ret ≠ 0 then (.error ret, st.setManager manager)
      else
        let st1 := (st.setManager manager).log (.pop .manager entry)
        if entry.flags ≠ WT_LSM_WORK_MERGE then (.assertFailed, st1)
        else
          let r := ext.merge st1.trace.length entry.lsm_tree cookie.id st1.conn.lsmqh
          (.next, (st1.setTrees r.2).log (.merge entry.lsm_tree cookie.id r.1))

/-- The branch `entry->flags == WT_LSM_WORK_FLUSH` of `__lsm_worker`: the chunk is
chosen and pinned, then checkpointed; either call failing jumps to `err`. -/
def workerFlush (ext : Externals) (cookie : WT_LSM_WORKER_ARGS)
    (entry : WT_LSM_WORK_UNIT) (st : WorkerState) : LoopCtl × WorkerState :=
  match derefTree entry.lsm_tree st.conn.lsmqh with
  | none => (.invalidRead, st)
  | some t =>
    match __lsm_get_chunk_to_flush (ext.tree_lock st.trace.length entry.lsm_tree)
        (ext.tree_unlock st.trace.length entry.lsm_tree) t with
    | .assertFailed => (.assertFailed, st)
    | .invalidRead => (.invalidRead, st)
    | .ok (ret, chunk, t1) =>
      let st1 := (st.setTrees (storeTree entry.lsm_tree t1 st.conn.lsmqh)).log
        (.get_chunk_to_flush entry.lsm_tree ret chunk)
      if ret ≠ 0 then (.error ret, st1)
      else
        let r := ext.checkpoint_chunk st1.trace.length entry.lsm_tree chunk st1.conn.lsmqh
        let st2 := (st1.setTrees r.2).log (.checkpoint_chunk entry.lsm_tree chunk r.1)
        if r.1 ≠ 0 then (.error r.1, st2)
        else workerMerge ext cookie st2

/-- The second part of the body of the loop of `__lsm_worker`: one unit of the
application queue, asked for with the whole of `cookie->flags`. -/
def workerApp (ext : Externals) (cookie : WT_LSM_WORKER_ARGS) (st : WorkerState) :
    LoopCtl × WorkerState :=
  if !(FLD_ISSET cookie.flags WT_LSM_WORK_FLUSH || FLD_ISSET cookie.flags WT_LSM_WORK_BLOOM)
  then workerMerge ext cookie st
  else
    match __lsm_pop_entry cookie.flags st.conn.lsm_manager with
    | .assertFailed => (.assertFailed, st)
    | .invalidRead => (.invalidRead, st)
    | .ok (ret, none, manager) =>
      if ret ≠ 0 then (.error ret, st.setManager manager)
      else workerMerge ext cookie (st.setManager manager)
    | .ok (ret, some entry, manager) =>
      if ret ≠ 0 then (.error ret, st.setManager manager)
      else
        let st1 := (st.setManager manager).log (.pop .app entry)
        if entry.flags = WT_LSM_WORK_FLUSH then workerFlush ext cookie entry st1
        else if entry.flags = WT_LSM_WORK_BLOOM then workerMerge ext cookie st1
        else workerMerge ext cookie st1

/-- The body of the loop `while (F_ISSET(conn, WT_CONN_SERVER_RUN))` of
`__lsm_worker`, run once from the connection `conn` with no event yet. -/
def __lsm_worker_body (ext : Externals) (cookie : WT_LSM_WORKER_ARGS)
    (conn : WT_CONNECTION_IMPL) : LoopCtl × WorkerState :=
  if conn.lsmqh.isEmpty then (.next, { conn := conn, trace := [.sleep 10000] })
  else
    match workerSwitches ext cookie (conn.lsm_manager.switchqh.length + 1)
        { conn := conn, trace := [] } with
    | (.next, st) => workerApp ext cookie st
    | r => r

/-! ## Notions used to state the properties -/

/-- A manager whose three queues are empty. -/
def emptyManager (workers : Nat) : WT_LSM_MANAGER :=
  { switchqh := [], appqh := [], managerqh := [], lsm_workers := workers }

/-- The units on a queue, head first. -/
def Queue.contents : Queue → WT_LSM_MANAGER → List WT_LSM_WORK_UNIT
  | .switch, m => m.switchqh
  | .app, m => m.appqh
  | .manager, m => m.managerqh

/-- The kinds a queue admits: Switch on the switch queue, Bloom and Flush on the
application queue, Merge on the manager queue. -/
def Queue.admits : Queue → Nat → Prop
  | .switch, k => k = WT_LSM_WORK_SWITCH
  | .app, k => k = WT_LSM_WORK_BLOOM ∨ k = WT_LSM_WORK_FLUSH
  | .manager, k => k = WT_LSM_WORK_MERGE

/-- The filters with which a queue is read: Switch for the switch queue, Merge for
the manager queue, a filter containing Bloom or Flush for the application queue. -/
def Queue.readBy : Queue → Nat → Prop
  | .switch, f => f = WT_LSM_WORK_SWITCH
  | .app, f => FLD_ISSET f WT_LSM_WORK_BLOOM = true ∨ FLD_ISSET f WT_LSM_WORK_FLUSH = true
  | .manager, f => f = WT_LSM_WORK_MERGE

instance (q : Queue) (k : Nat) : Decidable (q.admits k) := by
  cases q <;> unfold Queue.admits <;> infer_instance

instance (q : Queue) (f : Nat) : Decidable (q.readBy f) := by
  cases q <;> unfold Queue.readBy <;> infer_instance

/-- Successful calls of `__wt_lsm_push_entry`, one per pair of a kind and a tree, in
order. -/
def pushAll : List (Nat × TreePtr) → WT_LSM_MANAGER → WT_LSM_MANAGER
  | [], m => m
  | (type, tree) :: rest, m => pushAll rest (__wt_lsm_push_entry 0 type tree m).2

/-- The unit that `__wt_lsm_push_entry` allocates for a kind and a tree. -/
def unitOf (p : Nat × TreePtr) : WT_LSM_WORK_UNIT := { flags := p.1, lsm_tree := p.2 }

/-- So many calls of `__lsm_pop_entry` with the same filter, one after the other:
the values of `*entryp` in order, and the manager at the end. -/
def popMany (type : Nat) :
    Nat → WT_LSM_MANAGER → Outcome (List (Option WT_LSM_WORK_UNIT) × WT_LSM_MANAGER)
  | 0, m => .ok ([], m)
  | n + 1, m =>
    match __lsm_pop_entry type m with
    | .assertFailed => .assertFailed
    | .invalidRead => .invalidRead
    | .ok (_, entry, m1) =>
      match popMany type n m1 with
      | .assertFailed => .assertFailed
      | .invalidRead => .invalidRead
      | .ok (entries, m2) => .ok (entry :: entries, m2)

/-- A call made on the queues: a successful push, or a pop. -/
inductive QueueOp where
  | push (type : Nat) (tree : TreePtr)
  | pop (type : Nat)
  deriving DecidableEq, Repr

/-- A call that works on the given queue: a push of a kind the queue admits, or a
pop with a filter that reads the queue. -/
def Queue.hasOp (q : Queue) : QueueOp → Prop
  | .push type _ => q.admits type
  | .pop type => q.readBy type

instance (q : Queue) (op : QueueOp) : Decidable (q.hasOp op) := by
  cases op <;> unfold Queue.hasOp <;> infer_instance

/-- The units pushed and the units popped, each in order. -/
structure OpsLog where
  pushed : List WT_LSM_WORK_UNIT
  popped : List WT_LSM_WORK_UNIT
  deriving DecidableEq, Repr

/-- Run a sequence of calls, recording the unit of every push and the unit of every
pop that returned one. -/
def runOps : List QueueOp → WT_LSM_MANAGER → OpsLog → Outcome (OpsLog × WT_LSM_MANAGER)
  | [], m, log => .ok (log, m)
  | .push type tree :: rest, m, log =>
    runOps rest (__wt_lsm_push_entry 0 type tree m).2
      { log with pushed := log.pushed ++ [unitOf (type, tree)] }
  | .pop type :: rest, m, log =>
    match __lsm_pop_entry type m with
    | .assertFailed => .assertFailed
    | .invalidRead => .invalidRead
    | .ok (_, none, m1) => runOps rest m1 log
    | .ok (_, some entry, m1) => runOps rest m1 { log with popped := log.popped ++ [entry] }

/-- Replace the units of one queue. -/
def Queue.put : Queue → List WT_LSM_WORK_UNIT → WT_LSM_MANAGER → WT_LSM_MANAGER
  | .switch, us, m => { m with switchqh := us }
  | .app, us, m => { m with appqh := us }
  | .manager, us, m => { m with managerqh := us }

/-- The queue-kind invariant: only Switch units on the switch queue, only Flush and
Bloom units on the application queue, only Merge units on the manager queue. -/
def QueueKindInv (m : WT_LSM_MANAGER) : Prop :=
  (∀ u ∈ m.switchqh, u.flags = WT_LSM_WORK_SWITCH) ∧
  (∀ u ∈ m.appqh, u.flags = WT_LSM_WORK_FLUSH ∨ u.flags = WT_LSM_WORK_BLOOM) ∧
  (∀ u ∈ m.managerqh, u.flags = WT_LSM_WORK_MERGE)

instance (m : WT_LSM_MANAGER) : Decidable (QueueKindInv m) := by
  unfold QueueKindInv; infer_instance

/-- The managers reached from three empty queues by calls of `__wt_lsm_push_entry`
(any kind, any tree, the allocation failing or not), calls of `__lsm_pop_entry` that
return (any filter) and inspection passes of the manager thread (any open trees, any
allocation failing or not). -/
inductive Reachable : WT_LSM_MANAGER → Prop where
  | empty (workers : Nat) : Reachable (emptyManager workers)
  | push (m : WT_LSM_MANAGER) (calloc : Int) (type : Nat) (tree : TreePtr) :
      Reachable m → Reachable (__wt_lsm_push_entry calloc type tree m).2
  | pop (m : WT_LSM_MANAGER) (type : Nat) (ret : Int) (entry : Option WT_LSM_WORK_UNIT)
      (m1 : WT_LSM_MANAGER) :
      Reachable m → __lsm_pop_entry type m = .ok (ret, entry, m1) → Reachable m1
  | inspect (m : WT_LSM_MANAGER) (calloc : Nat → Int) (trees : List (TreePtr × WT_LSM_TREE)) :
      Reachable m → Reachable (inspectionPass calloc trees m).manager

/-- External functions that all return `0` and leave the trees as they are. -/
def quietExternals : Externals :=
  { tree_switch := fun _ _ trees => (0, trees)
    tree_lock := fun _ _ => 0
    tree_unlock := fun _ _ => 0
    checkpoint_chunk := fun _ _ _ trees => (0, trees)
    merge := fun _ _ _ trees => (0, trees) }

/-- A running connection with one open tree (at `7`, chunks `[on disk, not on disk,
active]`), a Switch unit, a Flush unit and a Merge unit queued for it. -/
def busyConn : WT_CONNECTION_IMPL :=
  { server_run := true
    lsmqh := [(7, ⟨true, 1, [⟨true, 0⟩, ⟨false, 0⟩, ⟨false, 0⟩]⟩)]
    lsm_manager := ⟨[⟨8, 7⟩], [⟨2, 7⟩], [⟨4, 7⟩], 3⟩ }

/-- The units a trace shows as popped from the queue `q`, in order. -/
def pops (q : Queue) : List Event → List WT_LSM_WORK_UNIT
  | [] => []
  | .pop q1 u :: rest => if q1 = q then u :: pops q rest else pops q rest
  | _ :: rest => pops q rest

/-- The trees a trace shows as passed to `__wt_lsm_tree_switch`, in order. -/
def switched : List Event → List TreePtr
  | [] => []
  | .tree_switch tree _ :: rest => tree :: switched rest
  | _ :: rest => switched rest

/-- The events of the loop over the switch queue: a pop from the switch queue, a
call of `__wt_lsm_tree_switch`, the report of its error. -/
def Event.ofSwitchLoop : Event → Bool
  | .pop .switch _ => true
  | .tree_switch _ _ => true
  | .err _ => true
  | _ => false

/-- The events of the rest of the body: a pop from the application or the manager
queue, the calls for a flush, a call of `__wt_lsm_merge`. -/
def Event.afterSwitchLoop : Event → Bool
  | .pop .app _ => true
  | .pop .manager _ => true
  | .get_chunk_to_flush _ _ _ => true
  | .checkpoint_chunk _ _ _ => true
  | .merge _ _ _ => true
  | _ => false

/-- One turn of the loop over the switch queue whose pop returned `u`, `rest` being
left on the queue: the state when the loop condition is tested again. -/
def switchOne (ext : Externals) (st : WorkerState) (u : WT_LSM_WORK_UNIT)
    (rest : List WT_LSM_WORK_UNIT) : WorkerState :=
  let st1 := (st.setManager { st.conn.lsm_manager with switchqh := rest }).log (.pop .switch u)
  let r := ext.tree_switch st1.trace.length u.lsm_tree st1.conn.lsmqh
  let st2 := (st1.setTrees r.2).log (.tree_switch u.lsm_tree r.1)
  if r.1 ≠ 0 then st2.log (.err r.1) else st2

/-- The state `st1` comes after `st` in the body of the worker's loop, past the loop
over the switch queue, the events in between being `evs`: the trace grew by `evs`,
the units `evs` shows as popped are those that left the queues, each of them passed
the test of its pop, and nothing else of the manager changed. -/
structure Extends (cookie : WT_LSM_WORKER_ARGS) (st st1 : WorkerState) (evs : List Event) :
    Prop where
  trace : st1.trace = st.trace ++ evs
  after : ∀ e ∈ evs, e.afterSwitchLoop = true
  switchq : st1.conn.lsm_manager.switchqh = st.conn.lsm_manager.switchqh
  appq : pops .app evs ++ st1.conn.lsm_manager.appqh = st.conn.lsm_manager.appqh
  managerq : pops .manager evs ++ st1.conn.lsm_manager.managerqh
    = st.conn.lsm_manager.managerqh
  workers : st1.conn.lsm_manager.lsm_workers = st.conn.lsm_manager.lsm_workers
  run : st1.conn.server_run = st.conn.server_run
  appMask : ∀ u ∈ pops .app evs, FLD_ISSET cookie.flags u.flags = true
  managerMask : ∀ u ∈ pops .manager evs,
    FLD_ISSET cookie.flags WT_LSM_WORK_MERGE = true ∧ FLD_ISSET u.flags WT_LSM_WORK_MERGE = true

/-- A run `r` of the body of the worker's loop from `conn` with a tree open: `st1` is
the state when the loop over the switch queue is left, `pre` the events up to then
and `post` the events after. -/
structure BodyRun (ext : Externals) (cookie : WT_LSM_WORKER_ARGS) (conn : WT_CONNECTION_IMPL)
    (r : LoopCtl × WorkerState) (st1 : WorkerState) (pre post : List Event) : Prop where
  appPart : r = workerApp ext cookie st1
  loopTrace : st1.trace = pre
  inLoop : ∀ e ∈ pre, e.ofSwitchLoop = true
  loopSwitchq : pops .switch pre ++ st1.conn.lsm_manager.switchqh = conn.lsm_manager.switchqh
  loopTrees : switched pre = (pops .switch pre).map (fun u => u.lsm_tree)
  loopAppPops : pops .app pre = []
  loopManagerPops : pops .manager pre = []
  loopAppq : st1.conn.lsm_manager.appqh = conn.lsm_manager.appqh
  loopManagerq : st1.conn.lsm_manager.managerqh = conn.lsm_manager.managerqh
  loopWorkers : st1.conn.lsm_manager.lsm_workers = conn.lsm_manager.lsm_workers
  loopRun : st1.conn.server_run = conn.server_run
  drained : FLD_ISSET cookie.flags WT_LSM_WORK_SWITCH = true →
    st1.conn.lsm_manager.switchqh = []
  skipped : FLD_ISSET cookie.flags WT_LSM_WORK_SWITCH = false → pre = []
  rest : Extends cookie st1 r.2 post
  ended : r.1 ≠ .running
  failed : ∀ c, r.1 = .error c → c ≠ 0 ∧ ∃ u chunk,
    u.flags = WT_LSM_WORK_FLUSH ∧ pops .app post = [u]
    ∧ (post.getLast? = some (.get_chunk_to_flush u.lsm_tree c chunk)
      ∨ post.getLast? = some (.checkpoint_chunk u.lsm_tree chunk c))

/-- The test of the inspection pass on a tree: `nchunks > 1 && merge_throttle > 0`. -/
def needsMerge (t : WT_LSM_TREE) : Bool := decide (t.nchunks > 1 ∧ t.merge_throttle > 0)

/-- The Merge unit for the tree at `p`. -/
def mergeUnit (p : TreePtr) : WT_LSM_WORK_UNIT := { flags := WT_LSM_WORK_MERGE, lsm_tree := p }

/-- So many inspection passes of the manager thread over the same open trees, one
after the other, with nothing popped in between. -/
def inspectionPasses (calloc : Nat → Int) (trees : List (TreePtr × WT_LSM_TREE)) :
    Nat → WT_LSM_MANAGER → WT_LSM_MANAGER
  | 0, m => m
  | k + 1, m => inspectionPasses calloc trees k (inspectionPass calloc trees m).manager

/-- The Merge units one inspection pass enqueues for the open trees. -/
def mergeUnits (trees : List (TreePtr × WT_LSM_TREE)) : List WT_LSM_WORK_UNIT :=
  (trees.filter (fun pt => needsMerge pt.2)).map (fun pt => mergeUnit pt.1)

/-- The manager `m1` comes from `m` by the merge part of the body: at most the head
of the manager queue was removed, and only by a worker that serves Merge; nothing
else changed. -/
def MergeStep (cookie : WT_LSM_WORKER_ARGS) (m m1 : WT_LSM_MANAGER) : Prop :=
  m1.switchqh = m.switchqh ∧ m1.appqh = m.appqh ∧ m1.lsm_workers = m.lsm_workers
  ∧ (m1.managerqh = m.managerqh
    ∨ (FLD_ISSET cookie.flags WT_LSM_WORK_MERGE = true ∧ ∃ e, m.managerqh = e :: m1.managerqh))

/-- The manager `m1` comes from `m` by the application part and the merge part of
the body: at most the head of the application queue was removed, and only by a
worker that serves Flush or Bloom; at most the head of the manager queue was
removed, and only by a worker that serves Merge; nothing else changed. -/
def AppStep (cookie : WT_LSM_WORKER_ARGS) (m m1 : WT_LSM_MANAGER) : Prop :=
  m1.switchqh = m.switchqh ∧ m1.lsm_workers = m.lsm_workers
  ∧ (m1.appqh = m.appqh
    ∨ ((FLD_ISSET cookie.flags WT_LSM_WORK_FLUSH || FLD_ISSET cookie.flags WT_LSM_WORK_BLOOM)
        = true ∧ ∃ e, m.appqh = e :: m1.appqh))
  ∧ (m1.managerqh = m.managerqh
    ∨ (FLD_ISSET cookie.flags WT_LSM_WORK_MERGE = true ∧ ∃ e, m.managerqh = e :: m1.managerqh))

/-- A running connection with one open tree (at `7`) and, on the switch queue, a unit
whose flags are Flush. -/
def seededConn : WT_CONNECTION_IMPL :=
  { server_run := true
    lsmqh := [(7, ⟨true, 1, [⟨true, 0⟩, ⟨false, 0⟩, ⟨false, 0⟩]⟩)]
    lsm_manager := ⟨[⟨2, 7⟩], [⟨4, 7⟩], [⟨2, 7⟩], 3⟩ }

/-- How a thread function ends. -/
inductive ThreadEnd where
  /-- the function returned; `ret` is not `0` when it went through `err` -/
  | returned (ret : Int)
  /-- a `WT_ASSERT` failed -/
  | assertFailed
  /-- memory was read that is not a valid object -/
  | invalidRead
  /-- the loop did not end within the turns allowed -/
  | running
  deriving DecidableEq, Repr

/-- The statement `--manager->lsm_workers` at the end of `__lsm_worker`, on the
32-bit unsigned count. -/
def workerExit (st : WorkerState) : WorkerState :=
  st.setManager { st.conn.lsm_manager with
    lsm_workers := (st.conn.lsm_manager.lsm_workers + 4294967295) % 4294967296 }

/-- The function `__lsm_worker`, for at most the given number of tests of
`F_ISSET(conn, WT_CONN_SERVER_RUN)`: the loop, then the report of the error when the
loop was left through `err`, then the decrement of the count of workers. The events
of each run of the body are added to the trace. -/
def __lsm_worker (ext : Externals) (cookie : WT_LSM_WORKER_ARGS) :
    Nat → WorkerState → ThreadEnd × WorkerState
  | 0, st => (.running, st)
  | fuel + 1, st =>
    if !st.conn.server_run then (.returned 0, workerExit st)
    else
      match __lsm_worker_body ext cookie st.conn with
      | (.next, st1) =>
        __lsm_worker ext cookie fuel { conn := st1.conn, trace := st.trace ++ st1.trace }
      | (.error ret, st1) =>
        (.returned ret,
          workerExit { conn := st1.conn, trace := st.trace ++ st1.trace ++ [.err ret] })
      | (.assertFailed, st1) =>
        (.assertFailed, { conn := st1.conn, trace := st.trace ++ st1.trace })
      | (.invalidRead, st1) =>
        (.invalidRead, { conn := st1.conn, trace := st.trace ++ st1.trace })
      | (.running, st1) => (.running, { conn := st1.conn, trace := st.trace ++ st1.trace })

/-- The return values of the calls `__lsm_worker_manager` makes before its loop, in
the order of the calls. -/
structure StartupCalls where
  spin_init_app : Int
  spin_init_manager : Int
  spin_init_switch : Int
  open_session_switch : Int
  calloc_switch : Int
  thread_create_switch : Int
  open_session_generic : Int
  calloc_generic : Int
  thread_create_generic : Int
  deriving DecidableEq, Repr

/-- The part of `__lsm_worker_manager` before its loop: the manager thread counts
itself, sets up the locks and starts the switch worker and a generic worker, each
counted as its cookie is filled in (`id = lsm_workers++`). The result is `ret`, the
manager and the cookies of the workers started; a call that fails ends it
(`WT_ERR`). -/
def managerStartup (calls : StartupCalls) (manager : WT_LSM_MANAGER) :
    Outcome (Int × WT_LSM_MANAGER × List WT_LSM_WORKER_ARGS) :=
  if manager.lsm_workers ≠ 0 then .assertFailed
  else
    let m1 := { manager with lsm_workers := 1 }
    if calls.spin_init_app ≠ 0 then .ok (calls.spin_init_app, m1, [])
    else if calls.spin_init_manager ≠ 0 then .ok (calls.spin_init_manager, m1, [])
    else if calls.spin_init_switch ≠ 0 then .ok (calls.spin_init_switch, m1, [])
    else if calls.open_session_switch ≠ 0 then .ok (calls.open_session_switch, m1, [])
    else if calls.calloc_switch ≠ 0 then .ok (calls.calloc_switch, m1, [])
    else
      let switchArgs : WT_LSM_WORKER_ARGS :=
        { id := m1.lsm_workers, flags := WT_LSM_WORK_SWITCH }
      let m2 := { m1 with lsm_workers := (m1.lsm_workers + 1) % 4294967296 }
      if calls.thread_create_switch ≠ 0 then .ok (calls.thread_create_switch, m2, [])
      else if calls.open_session_generic ≠ 0 then
        .ok (calls.open_session_generic, m2, [switchArgs])
      else if calls.calloc_generic ≠ 0 then .ok (calls.calloc_generic, m2, [switchArgs])
      else
        let genericArgs : WT_LSM_WORKER_ARGS :=
          { id := m2.lsm_workers
            flags := WT_LSM_WORK_BLOOM ||| WT_LSM_WORK_FLUSH ||| WT_LSM_WORK_MERGE
              ||| WT_LSM_WORK_SWITCH }
        let m3 := { m2 with lsm_workers := (m2.lsm_workers + 1) % 4294967296 }
        if calls.thread_create_generic ≠ 0 then
          .ok (calls.thread_create_generic, m3, [switchArgs])
        else .ok (0, m3, [switchArgs, genericArgs])

/-- The loop `while (F_ISSET(conn, WT_CONN_SERVER_RUN))` of `__lsm_worker_manager`,
for at most the given number of tests, and the return after it; `calloc n` gives the
allocations of the `n`-th pass. The count of workers is not written. -/
def managerLoop (calloc : Nat → Nat → Int) : Nat → Nat → WorkerState → ThreadEnd × WorkerState
  | 0, _, st => (.running, st)
  | fuel + 1, n, st =>
    if !st.conn.server_run then (.returned 0, st)
    else if st.conn.lsmqh.isEmpty then managerLoop calloc fuel n (st.log (.sleep 10000))
    else
      let pass := inspectionPass (calloc n) st.conn.lsmqh st.conn.lsm_manager
      let st1 := st.setManager pass.manager
      if pass.ret ≠ 0 then (.returned pass.ret, st1.log (.err pass.ret))
      else if pass.queued = 0 then managerLoop calloc fuel (n + 1) (st1.log (.sleep 1000))
      else managerLoop calloc fuel (n + 1) st1

/-- The function `__lsm_worker_manager`: the start-up, then the loop; an error in
the start-up is reported and the function returns. The cookies are those of the
workers it started. -/
def __lsm_worker_manager (calls : StartupCalls) (calloc : Nat → Nat → Int) (fuel : Nat)
    (st : WorkerState) : ThreadEnd × WorkerState × List WT_LSM_WORKER_ARGS :=
  match managerStartup calls st.conn.lsm_manager with
  | .assertFailed => (.assertFailed, st, [])
  | .invalidRead => (.invalidRead, st, [])
  | .ok (ret, manager, cookies) =>
    if ret ≠ 0 then (.returned ret, (st.setManager manager).log (.err ret), cookies)
    else
      let r := managerLoop calloc fuel 0 (st.setManager manager)
      (r.1, r.2, cookies)

/-- Start-up calls that all succeed. -/
def quietStartup : StartupCalls :=
  { spin_init_app := 0, spin_init_manager := 0, spin_init_switch := 0
    open_session_switch := 0, calloc_switch := 0, thread_create_switch := 0
    open_session_generic := 0, calloc_generic := 0, thread_create_generic := 0 }

/-- A connection whose server-running flag is clear, with one open tree and a
manager not yet started. -/
def stoppedConn : WT_CONNECTION_IMPL :=
  { server_run := false
    lsmqh := [(7, ⟨true, 1, [⟨false, 0⟩]⟩)]
    lsm_manager := emptyManager 0 }

theorem FLD_ISSET_comm (a b : Nat) : FLD_ISSET a b = FLD_ISSET b a := by
  unfold FLD_ISSET; rw [Nat.land_comm]

theorem readBy_app_ne {f : Nat} (h : Queue.readBy .app f) :
    f ≠ WT_LSM_WORK_SWITCH ∧ f ≠ WT_LSM_WORK_MERGE := by
  simp only [Queue.readBy] at h
  constructor
  · rintro rfl; revert h; decide
  · rintro rfl; revert h; decide

theorem readBy_app_assert {f : Nat} (h : Queue.readBy .app f) :
    (FLD_ISSET f WT_LSM_WORK_BLOOM || FLD_ISSET f WT_LSM_WORK_FLUSH) = true := by
  rcases h with h | h <;> simp [h]

/-- A pop on an empty queue returns `NULL` and changes nothing. -/
theorem pop_nil (q : Queue) (f : Nat) (m : WT_LSM_MANAGER) (hf : q.readBy f)
    (hq : q.contents m = []) : __lsm_pop_entry f m = .ok (0, none, m) := by
  cases q
  · simp only [Queue.readBy] at hf; simp only [Queue.contents] at hq
    subst hf; simp [__lsm_pop_entry, hq]
  · have hne := readBy_app_ne hf
    have has := readBy_app_assert hf
    simp only [Queue.contents] at hq
    simp [__lsm_pop_entry, hne.1, hne.2, has, hq]
  · simp only [Queue.readBy] at hf; simp only [Queue.contents] at hq
    subst hf
    have : WT_LSM_WORK_MERGE ≠ WT_LSM_WORK_SWITCH := by decide
    simp [__lsm_pop_entry, this, hq]

/-- A pop on a queue whose head matches the filter returns the head and removes it. -/
theorem pop_cons_match (q : Queue) (f : Nat) (m : WT_LSM_MANAGER) (e : WT_LSM_WORK_UNIT)
    (rest : List WT_LSM_WORK_UNIT) (hf : q.readBy f) (hq : q.contents m = e :: rest)
    (hm : q = .switch ∨ FLD_ISSET f e.flags = true) :
    __lsm_pop_entry f m = .ok (0, some e, q.put rest m) := by
  cases q
  · simp only [Queue.readBy] at hf; simp only [Queue.contents] at hq
    subst hf; simp [__lsm_pop_entry, hq, Queue.put]
  · have hne := readBy_app_ne hf
    have has := readBy_app_assert hf
    simp only [Queue.contents] at hq
    have hm1 : FLD_ISSET f e.flags = true := by simpa using hm
    simp [__lsm_pop_entry, hne.1, hne.2, has, hq, hm1, Queue.put]
  · simp only [Queue.readBy] at hf; simp only [Queue.contents] at hq
    subst hf
    have : WT_LSM_WORK_MERGE ≠ WT_LSM_WORK_SWITCH := by decide
    have hm1 : FLD_ISSET e.flags WT_LSM_WORK_MERGE = true := by
      rw [FLD_ISSET_comm]; simpa using hm
    simp [__lsm_pop_entry, this, hq, hm1, Queue.put]

/-- A pop on a queue whose head does not match the filter returns `NULL` and changes
nothing (this cannot happen on the switch queue). -/
theorem pop_cons_nomatch (q : Queue) (f : Nat) (m : WT_LSM_MANAGER) (e : WT_LSM_WORK_UNIT)
    (rest : List WT_LSM_WORK_UNIT) (hf : q.readBy f) (hq : q.contents m = e :: rest)
    (hs : q ≠ .switch) (hm : FLD_ISSET f e.flags = false) :
    __lsm_pop_entry f m = .ok (0, none, m) := by
  cases q
  · exact absurd rfl hs
  · have hne := readBy_app_ne hf
    have has := readBy_app_assert hf
    simp only [Queue.contents] at hq
    simp [__lsm_pop_entry, hne.1, hne.2, has, hq, hm]
  · simp only [Queue.readBy] at hf; simp only [Queue.contents] at hq
    subst hf
    have : WT_LSM_WORK_MERGE ≠ WT_LSM_WORK_SWITCH := by decide
    have hm1 : FLD_ISSET e.flags WT_LSM_WORK_MERGE = false := by
      rw [FLD_ISSET_comm]; exact hm
    simp [__lsm_pop_entry, this, hq, hm1]

/-- A successful push of a kind the queue admits appends the unit to that queue. -/
theorem push_admitted (q : Queue) (type : Nat) (tree : TreePtr) (m : WT_LSM_MANAGER)
    (ha : q.admits type) :
    __wt_lsm_push_entry 0 type tree m = (0, q.put (q.contents m ++ [unitOf (type, tree)]) m) := by
  cases q
  · simp only [Queue.admits] at ha; subst ha
    simp [__wt_lsm_push_entry, Queue.put, Queue.contents, unitOf]
  · simp only [Queue.admits] at ha
    have hne : type ≠ WT_LSM_WORK_SWITCH := by
      rcases ha with rfl | rfl <;> decide
    simp [__wt_lsm_push_entry, Queue.put, Queue.contents, unitOf, hne, ha]
  · simp only [Queue.admits] at ha; subst ha
    have h1 : WT_LSM_WORK_MERGE ≠ WT_LSM_WORK_SWITCH := by decide
    have h2 : ¬ (WT_LSM_WORK_MERGE = WT_LSM_WORK_BLOOM ∨ WT_LSM_WORK_MERGE = WT_LSM_WORK_FLUSH) := by
      decide
    simp [__wt_lsm_push_entry, Queue.put, Queue.contents, unitOf, h1, h2]

theorem contents_put (q : Queue) (us : List WT_LSM_WORK_UNIT) (m : WT_LSM_MANAGER) :
    q.contents (q.put us m) = us := by
  cases q <;> rfl

theorem put_put (q : Queue) (us vs : List WT_LSM_WORK_UNIT) (m : WT_LSM_MANAGER) :
    q.put us (q.put vs m) = q.put us m := by
  cases q <;> rfl

theorem put_contents (q : Queue) (m : WT_LSM_MANAGER) : q.put (q.contents m) m = m := by
  cases q <;> rfl

theorem pushAll_admitted (q : Queue) (ps : List (Nat × TreePtr)) (m : WT_LSM_MANAGER)
    (ha : ∀ p ∈ ps, q.admits p.1) :
    pushAll ps m = q.put (q.contents m ++ ps.map unitOf) m := by
  induction ps generalizing m with
  | nil => simp [pushAll, put_contents]
  | cons p ps ih =>
    obtain ⟨type, tree⟩ := p
    have h1 : q.admits type := ha (type, tree) (List.mem_cons_self _ _)
    have h2 : ∀ p ∈ ps, q.admits p.1 := fun p hp => ha p (List.mem_cons_of_mem _ hp)
    simp only [pushAll, push_admitted q type tree m h1]
    rw [ih _ h2, contents_put, put_put]
    simp

theorem popMany_drain (q : Queue) (f : Nat) (hf : q.readBy f) (us : List WT_LSM_WORK_UNIT)
    (m : WT_LSM_MANAGER) (hq : q.contents m = us)
    (hm : ∀ u ∈ us, FLD_ISSET f u.flags = true) :
    popMany f (us.length + 1) m = .ok (us.map some ++ [none], q.put [] m) := by
  induction us generalizing m with
  | nil =>
    have hput : q.put [] m = m := by rw [← hq, put_contents]
    simp [popMany, pop_nil q f m hf hq, hput]
  | cons u us ih =>
    have h1 : FLD_ISSET f u.flags = true := hm u (List.mem_cons_self _ _)
    have h2 : ∀ v ∈ us, FLD_ISSET f v.flags = true :=
      fun v hv => hm v (List.mem_cons_of_mem _ hv)
    have hpop := pop_cons_match q f m u us hf hq (Or.inr h1)
    have hrec := ih (q.put us m) (contents_put q us m) h2
    rw [put_put] at hrec
    rw [List.length_cons, popMany, hpop]
    simp only []
    rw [hrec]
    simp

/-- Pushes and pops on one queue keep "popped, then what is on the queue" equal to
"pushed". -/
theorem runOps_queue (q : Queue) (ops : List QueueOp) (m : WT_LSM_MANAGER) (log : OpsLog)
    (hops : ∀ op ∈ ops, q.hasOp op) (hinv : log.popped ++ q.contents m = log.pushed) :
    ∃ log1 m1, runOps ops m log = .ok (log1, m1) ∧
      log1.popped ++ q.contents m1 = log1.pushed := by
  induction ops generalizing m log with
  | nil => exact ⟨log, m, rfl, hinv⟩
  | cons op ops ih =>
    have h1 : q.hasOp op := hops op (List.mem_cons_self _ _)
    have h2 : ∀ o ∈ ops, q.hasOp o := fun o ho => hops o (List.mem_cons_of_mem _ ho)
    cases op with
    | push type tree =>
      simp only [Queue.hasOp] at h1
      simp only [runOps, push_admitted q type tree m h1]
      apply ih _ _ h2
      simp [contents_put, ← hinv]
    | pop type =>
      simp only [Queue.hasOp] at h1
      cases hc : q.contents m with
      | nil =>
        simp only [runOps, pop_nil q type m h1 hc]
        exact ih _ _ h2 hinv
      | cons e rest =>
        by_cases hs : q = .switch
        · simp only [runOps, pop_cons_match q type m e rest h1 hc (Or.inl hs)]
          apply ih _ _ h2
          simp [contents_put, ← hinv, hc]
        · cases hmatch : FLD_ISSET type e.flags with
          | true =>
            simp only [runOps, pop_cons_match q type m e rest h1 hc (Or.inr hmatch)]
            apply ih _ _ h2
            simp [contents_put, ← hinv, hc]
          | false =>
            simp only [runOps, pop_cons_nomatch q type m e rest h1 hc hs hmatch]
            exact ih _ _ h2 hinv

/-! ## Properties -/

/-- C1 (FIFO per queue). For each of the three queues, starting from three empty
queues: after the units `ps` are pushed with kinds the queue admits, repeated pops
with a filter that reads the queue and matches every pushed kind return the units in
push order and then `NULL`, leaving the queues empty; and for every interleaving of
such pushes and pops on the queue, the run ends normally, the units popped followed
by the units still queued are the units pushed, so the popped units are a prefix of
the pushed units. -/
theorem C1_fifo_per_queue (q : Queue) (f workers : Nat) (ps : List (Nat × TreePtr))
    (ops : List QueueOp) (hadm : ∀ p ∈ ps, q.admits p.1) (hf : q.readBy f)
    (hmatch : ∀ p ∈ ps, FLD_ISSET f p.1 = true) (hops : ∀ op ∈ ops, q.hasOp op) :
    popMany f (ps.length + 1) (pushAll ps (emptyManager workers))
      = .ok (ps.map (fun p => some (unitOf p)) ++ [none], emptyManager workers)
    ∧ ∃ log m, runOps ops (emptyManager workers) { pushed := [], popped := [] } = .ok (log, m)
        ∧ log.popped ++ q.contents m = log.pushed ∧ log.popped <+: log.pushed := by
  constructor
  · rw [pushAll_admitted q ps _ hadm]
    have hempty : q.contents (emptyManager workers) = [] := by cases q <;> rfl
    rw [hempty, List.nil_append]
    have hd := popMany_drain q f hf (ps.map unitOf)
      (q.put (ps.map unitOf) (emptyManager workers)) (contents_put _ _ _)
      (by
        intro u hu
        obtain ⟨p, hp, rfl⟩ := List.mem_map.1 hu
        exact hmatch p hp)
    rw [List.length_map] at hd
    rw [hd, put_put]
    have hput : q.put [] (emptyManager workers) = emptyManager workers := by cases q <;> rfl
    rw [hput, List.map_map]
    rfl
  · have hempty : q.contents (emptyManager workers) = [] := by cases q <;> rfl
    obtain ⟨log, m, hrun, hinv⟩ := runOps_queue q ops (emptyManager workers)
      { pushed := [], popped := [] } hops (by simp [hempty])
    exact ⟨log, m, hrun, hinv, ⟨q.contents m, hinv⟩⟩

/-- C1 at work on the application queue: a Flush and a Bloom unit pushed, read with
the filter Bloom|Flush. -/
theorem C1_fifo_per_queue_witness :
    (popMany 3 3 (pushAll [(2, 5), (1, 6)] (emptyManager 3))
      = .ok ([some (unitOf (2, 5)), some (unitOf (1, 6)), none], emptyManager 3))
    ∧ ∃ log m, runOps [.push 2 5, .pop 3, .push 1 6] (emptyManager 3)
          { pushed := [], popped := [] } = .ok (log, m)
        ∧ log.popped ++ Queue.app.contents m = log.pushed ∧ log.popped <+: log.pushed :=
  C1_fifo_per_queue .app 3 3 [(2, 5), (1, 6)] [.push 2 5, .pop 3, .push 1 6]
    (by decide) (by decide) (by decide) (by decide)

/-- C2 (pop on the application queue). For every manager and every filter that
contains Flush or Bloom (such a filter is neither exactly Switch nor exactly Merge):
when the application queue has a head whose flags intersect the filter, the pop
returns that head and removes it; in every other case it returns `NULL` and the
manager is exactly as before. The switch and manager queues are the same in both
cases, and the pop returns `0`. -/
theorem C2_app_queue_pop (f : Nat) (m : WT_LSM_MANAGER)
    (hf : FLD_ISSET f WT_LSM_WORK_FLUSH = true ∨ FLD_ISSET f WT_LSM_WORK_BLOOM = true) :
    (f ≠ WT_LSM_WORK_SWITCH ∧ f ≠ WT_LSM_WORK_MERGE)
    ∧ (∀ e rest, m.appqh = e :: rest → f &&& e.flags ≠ 0 →
        __lsm_pop_entry f m = .ok (0, some e,
          { switchqh := m.switchqh, appqh := rest, managerqh := m.managerqh,
            lsm_workers := m.lsm_workers }))
    ∧ ((¬ ∃ e rest, m.appqh = e :: rest ∧ f &&& e.flags ≠ 0) →
        __lsm_pop_entry f m = .ok (0, none, m)) := by
  have hr : Queue.readBy .app f := hf.symm
  refine ⟨readBy_app_ne hr, ?_, ?_⟩
  · intro e rest hq hm
    have hm1 : FLD_ISSET f e.flags = true := by simpa [FLD_ISSET] using hm
    exact pop_cons_match .app f m e rest hr hq (Or.inr hm1)
  · intro hno
    cases hq : m.appqh with
    | nil => exact pop_nil .app f m hr hq
    | cons e rest =>
      have hm1 : FLD_ISSET f e.flags = false := by
        have : ¬ (f &&& e.flags ≠ 0) := fun h => hno ⟨e, rest, hq, h⟩
        simpa [FLD_ISSET] using this
      exact pop_cons_nomatch .app f m e rest hr hq (by decide) hm1

/-- C2 at work: the filter Bloom|Flush on an application queue headed by a Flush
unit, and on one headed by a unit it does not match. -/
theorem C2_app_queue_pop_witness :
    (3 ≠ WT_LSM_WORK_SWITCH ∧ 3 ≠ WT_LSM_WORK_MERGE)
    ∧ (∀ e rest, [(⟨2, 7⟩ : WT_LSM_WORK_UNIT), ⟨1, 8⟩] = e :: rest → 3 &&& e.flags ≠ 0 →
        __lsm_pop_entry 3 ⟨[⟨8, 1⟩], [⟨2, 7⟩, ⟨1, 8⟩], [⟨4, 2⟩], 3⟩ = .ok (0, some e,
          { switchqh := [⟨8, 1⟩], appqh := rest, managerqh := [⟨4, 2⟩], lsm_workers := 3 }))
    ∧ ((¬ ∃ e rest, [(⟨2, 7⟩ : WT_LSM_WORK_UNIT), ⟨1, 8⟩] = e :: rest ∧ 3 &&& e.flags ≠ 0) →
        __lsm_pop_entry 3 ⟨[⟨8, 1⟩], [⟨2, 7⟩, ⟨1, 8⟩], [⟨4, 2⟩], 3⟩
          = .ok (0, none, ⟨[⟨8, 1⟩], [⟨2, 7⟩, ⟨1, 8⟩], [⟨4, 2⟩], 3⟩)) :=
  C2_app_queue_pop 3 ⟨[⟨8, 1⟩], [⟨2, 7⟩, ⟨1, 8⟩], [⟨4, 2⟩], 3⟩ (by decide)

theorem QueueKindInv_push (calloc : Int) (type : Nat) (tree : TreePtr) (m : WT_LSM_MANAGER)
    (h : QueueKindInv m) : QueueKindInv (__wt_lsm_push_entry calloc type tree m).2 := by
  obtain ⟨hs, ha, hm⟩ := h
  unfold __wt_lsm_push_entry
  split
  · exact ⟨hs, ha, hm⟩
  · split
    · next ht =>
      refine ⟨?_, ha, hm⟩
      intro u hu
      rcases List.mem_append.1 hu with hu | hu
      · exact hs u hu
      · simp only [List.mem_singleton] at hu; subst hu; exact ht
    · split
      · next ht =>
        refine ⟨hs, ?_, hm⟩
        intro u hu
        rcases List.mem_append.1 hu with hu | hu
        · exact ha u hu
        · simp only [List.mem_singleton] at hu; subst hu; exact ht.symm
      · split
        · next ht =>
          refine ⟨hs, ha, ?_⟩
          intro u hu
          rcases List.mem_append.1 hu with hu | hu
          · exact hm u hu
          · simp only [List.mem_singleton] at hu; subst hu; exact ht
        · exact ⟨hs, ha, hm⟩

/-- A pop that returns leaves on each queue only units that were on it. -/
theorem pop_subset (type : Nat) (m m1 : WT_LSM_MANAGER) (ret : Int)
    (entry : Option WT_LSM_WORK_UNIT) (h : __lsm_pop_entry type m = .ok (ret, entry, m1)) :
    (∀ u ∈ m1.switchqh, u ∈ m.switchqh) ∧ (∀ u ∈ m1.appqh, u ∈ m.appqh) ∧
      (∀ u ∈ m1.managerqh, u ∈ m.managerqh) := by
  unfold __lsm_pop_entry at h
  split at h
  · cases hq : m.switchqh with
    | nil => simp [hq] at h; obtain ⟨-, -, rfl⟩ := h; simp [hq]
    | cons e rest =>
      simp [hq] at h; obtain ⟨-, -, rfl⟩ := h
      simp only [hq]
      exact ⟨fun u hu => List.mem_cons_of_mem _ hu, fun u hu => hu, fun u hu => hu⟩
  · split at h
    · cases hq : m.managerqh with
      | nil => simp [hq] at h; obtain ⟨-, -, rfl⟩ := h; simp [hq]
      | cons e rest =>
        simp [hq] at h
        split at h
        · simp at h; obtain ⟨-, -, rfl⟩ := h
          simp only [hq]
          exact ⟨fun u hu => hu, fun u hu => hu, fun u hu => List.mem_cons_of_mem _ hu⟩
        · simp at h; obtain ⟨-, -, rfl⟩ := h; simp [hq]
    · split at h
      · cases h
      · cases hq : m.appqh with
        | nil => simp [hq] at h; obtain ⟨-, -, rfl⟩ := h; simp [hq]
        | cons e rest =>
          simp [hq] at h
          split at h
          · simp at h; obtain ⟨-, -, rfl⟩ := h
            simp only [hq]
            exact ⟨fun u hu => hu, fun u hu => List.mem_cons_of_mem _ hu, fun u hu => hu⟩
          · simp at h; obtain ⟨-, -, rfl⟩ := h; simp [hq]

theorem QueueKindInv_pop (type : Nat) (m m1 : WT_LSM_MANAGER) (ret : Int)
    (entry : Option WT_LSM_WORK_UNIT) (h : __lsm_pop_entry type m = .ok (ret, entry, m1))
    (hinv : QueueKindInv m) : QueueKindInv m1 := by
  obtain ⟨h1, h2, h3⟩ := pop_subset type m m1 ret entry h
  exact ⟨fun u hu => hinv.1 u (h1 u hu), fun u hu => hinv.2.1 u (h2 u hu),
    fun u hu => hinv.2.2 u (h3 u hu)⟩

theorem QueueKindInv_inspectTrees (calloc : Nat → Int) (trees : List (TreePtr × WT_LSM_TREE))
    (queued : Nat) (m : WT_LSM_MANAGER) (h : QueueKindInv m) :
    QueueKindInv (inspectTrees calloc trees queued m).manager := by
  induction trees generalizing queued m with
  | nil => exact h
  | cons pt trees ih =>
    obtain ⟨p, t⟩ := pt
    unfold inspectTrees
    split
    · split
      · exact h
      · apply ih
        refine ⟨h.1, h.2.1, ?_⟩
        intro u hu
        rcases List.mem_append.1 hu with hu | hu
        · exact h.2.2 u hu
        · simp only [List.mem_singleton] at hu; subst hu; rfl
    · exact ih _ _ h

/-- C3 (queue-kind invariant). In every manager reached from three empty queues by
pushes, pops and inspection passes, every unit on the switch queue has flags exactly
Switch, every unit on the manager queue has flags exactly Merge, and every unit on
the application queue has flags exactly Flush or exactly Bloom. -/
theorem C3_queue_kind_invariant (m : WT_LSM_MANAGER) (h : Reachable m) : QueueKindInv m := by
  induction h with
  | empty workers => exact ⟨by simp [emptyManager], by simp [emptyManager], by simp [emptyManager]⟩
  | push m calloc type tree _ ih => exact QueueKindInv_push calloc type tree m ih
  | pop m type ret entry m1 _ hpop ih => exact QueueKindInv_pop type m m1 ret entry hpop ih
  | inspect m calloc trees _ ih => exact QueueKindInv_inspectTrees calloc trees 0 m ih

/-- C3 at work: a Flush push, a push of the kind 0, an inspection pass over a tree
of two chunks, a Switch push and a pop with the filter Bloom|Flush. -/
theorem C3_queue_kind_invariant_witness :
    Reachable ⟨[⟨8, 1⟩], [], [⟨4, 9⟩], 3⟩ ∧ QueueKindInv ⟨[⟨8, 1⟩], [], [⟨4, 9⟩], 3⟩ :=
  have hr : Reachable ⟨[⟨8, 1⟩], [], [⟨4, 9⟩], 3⟩ :=
    Reachable.pop ⟨[⟨8, 1⟩], [⟨2, 1⟩], [⟨4, 9⟩], 3⟩ 3 0 (some ⟨2, 1⟩) _
      (Reachable.push _ 0 8 1
        (Reachable.inspect _ (fun _ => 0) [(9, ⟨true, 1, [⟨true, 0⟩, ⟨false, 0⟩]⟩)]
          (Reachable.push _ 0 0 1 (Reachable.push _ 0 2 1 (Reachable.empty 3)))))
      (by decide)
  ⟨hr, C3_queue_kind_invariant _ hr⟩

/-- The scan stops at the first chunk that is not on disk. -/
theorem scanOnDisk_first (chunks : List WT_LSM_CHUNK) (k i : Nat) (c : WT_LSM_CHUNK)
    (hi : chunks[i]? = some c) (hc : c.ondisk = false)
    (hleast : (chunks.take i).all (fun d => d.ondisk) = true) :
    scanOnDisk chunks k = k + i := by
  induction chunks generalizing k i with
  | nil => simp at hi
  | cons d rest ih =>
    cases i with
    | zero =>
      simp only [List.getElem?_cons_zero, Option.some.injEq] at hi
      subst hi
      simp [scanOnDisk, hc]
    | succ i =>
      simp only [List.getElem?_cons_succ] at hi
      simp only [List.take_succ_cons, List.all_cons, Bool.and_eq_true] at hleast
      simp only [scanOnDisk, hleast.1, if_true]
      rw [ih (k + 1) i hi hleast.2]
      omega

/-- C4 (flush chunk selection). For every tree with the WORKING flag set whose
chunk `i` is the first that is not on disk, when the tree lock and unlock succeed,
`__lsm_get_chunk_to_flush` returns `0` and `chunk[i]`; the reference count of that
chunk is one more than before, its on-disk flag and every other chunk are as before,
and so are the other fields of the tree. -/
theorem C4_flush_chunk_selection (lock unlock : Int) (t : WT_LSM_TREE) (i : Nat)
    (c : WT_LSM_CHUNK) (hlock : lock = 0) (hunlock : unlock = 0) (hw : t.working = true)
    (hi : t.chunk[i]? = some c) (hc : c.ondisk = false)
    (hleast : (t.chunk.take i).all (fun d => d.ondisk) = true) :
    ∃ t1, __lsm_get_chunk_to_flush lock unlock t = .ok (0, some i, t1)
      ∧ t1.chunk[i]? = some { ondisk := c.ondisk, refcnt := c.refcnt + 1 }
      ∧ (∀ j, j ≠ i → t1.chunk[j]? = t.chunk[j]?)
      ∧ t1.nchunks = t.nchunks ∧ t1.working = t.working
      ∧ t1.merge_throttle = t.merge_throttle := by
  subst hlock hunlock
  have hscan : scanOnDisk t.chunk 0 = i := by
    rw [scanOnDisk_first t.chunk 0 i c hi hc hleast]; omega
  have hlt : i < t.nchunks := by
    unfold WT_LSM_TREE.nchunks
    by_contra hge
    rw [List.getElem?_eq_none (by omega)] at hi
    cases hi
  refine ⟨pinChunk t i, ?_, ?_, ?_, ?_, rfl, rfl⟩
  · simp [__lsm_get_chunk_to_flush, hw, hscan, hi, hc, hlt]
  · simp [pinChunk, hi]
  · intro j hj
    simp [pinChunk, List.getElem?_modify_ne _ _ (Ne.symm hj)]
  · simp [pinChunk, WT_LSM_TREE.nchunks]

/-- C4 at work on the chunks `[on disk, on disk, not on disk, active]`: chunk 2 is
returned with its reference count raised from 5 to 6. -/
theorem C4_flush_chunk_selection_witness :
    ∃ t1, __lsm_get_chunk_to_flush 0 0
        ⟨true, 0, [⟨true, 1⟩, ⟨true, 0⟩, ⟨false, 5⟩, ⟨false, 1⟩]⟩ = .ok (0, some 2, t1)
      ∧ t1.chunk[2]? = some { ondisk := false, refcnt := 5 + 1 }
      ∧ (∀ j, j ≠ 2 →
          t1.chunk[j]? = [(⟨true, 1⟩ : WT_LSM_CHUNK), ⟨true, 0⟩, ⟨false, 5⟩, ⟨false, 1⟩][j]?)
      ∧ t1.nchunks = 4 ∧ t1.working = true ∧ t1.merge_throttle = 0 :=
  C4_flush_chunk_selection 0 0 ⟨true, 0, [⟨true, 1⟩, ⟨true, 0⟩, ⟨false, 5⟩, ⟨false, 1⟩]⟩ 2
    ⟨false, 5⟩ rfl rfl rfl rfl rfl rfl


/-! ## The worker: lemmas -/

theorem pops_append (q : Queue) (xs ys : List Event) :
    pops q (xs ++ ys) = pops q xs ++ pops q ys := by
  induction xs with
  | nil => rfl
  | cons e xs ih =>
    cases e with
    | pop q1 u => by_cases h : q1 = q <;> simp [pops, h, ih]
    | _ => simp [pops, ih]

theorem switched_append (xs ys : List Event) :
    switched (xs ++ ys) = switched xs ++ switched ys := by
  induction xs with
  | nil => rfl
  | cons e xs ih => cases e <;> simp [switched, ih]

/-- A pop with the filter Switch returns the head of the switch queue, if any. -/
theorem pop_switch (m : WT_LSM_MANAGER) :
    __lsm_pop_entry WT_LSM_WORK_SWITCH m
      = .ok (0, m.switchqh.head?, { m with switchqh := m.switchqh.tail }) := by
  obtain ⟨sq, aq, mq, w⟩ := m
  cases sq <;> simp [__lsm_pop_entry]

theorem workerSwitches_nil (ext : Externals) (cookie : WT_LSM_WORKER_ARGS)
    (hbit : FLD_ISSET cookie.flags WT_LSM_WORK_SWITCH = true) (fuel : Nat) (st : WorkerState)
    (hq : st.conn.lsm_manager.switchqh = []) :
    workerSwitches ext cookie (fuel + 1) st = (.next, st) := by
  obtain ⟨⟨run, trees, ⟨sq, aq, mq, w⟩⟩, tr⟩ := st
  simp only at hq
  subst hq
  simp [workerSwitches, hbit, pop_switch, WorkerState.setManager]

theorem workerSwitches_cons (ext : Externals) (cookie : WT_LSM_WORKER_ARGS)
    (hbit : FLD_ISSET cookie.flags WT_LSM_WORK_SWITCH = true) (fuel : Nat) (st : WorkerState)
    (u : WT_LSM_WORK_UNIT) (rest : List WT_LSM_WORK_UNIT)
    (hq : st.conn.lsm_manager.switchqh = u :: rest) :
    workerSwitches ext cookie (fuel + 1) st
      = workerSwitches ext cookie fuel (switchOne ext st u rest) := by
  obtain ⟨⟨run, trees, ⟨sq, aq, mq, w⟩⟩, tr⟩ := st
  simp only at hq
  subst hq
  simp only [workerSwitches, hbit, pop_switch, switchOne, List.head?_cons, List.tail_cons]
  simp only [Bool.not_true, Bool.false_eq_true, if_false, ne_eq, not_true_eq_false]
  split <;> rfl

/-- What one turn of the loop over the switch queue does. -/
theorem switchOne_spec (ext : Externals) (st : WorkerState) (u : WT_LSM_WORK_UNIT)
    (rest : List WT_LSM_WORK_UNIT) :
    ∃ evs, (switchOne ext st u rest).trace = st.trace ++ evs
      ∧ (switchOne ext st u rest).conn.lsm_manager
          = { st.conn.lsm_manager with switchqh := rest }
      ∧ (switchOne ext st u rest).conn.server_run = st.conn.server_run
      ∧ pops .switch evs = [u] ∧ pops .app evs = [] ∧ pops .manager evs = []
      ∧ switched evs = [u.lsm_tree]
      ∧ ∀ e ∈ evs, e.ofSwitchLoop = true := by
  obtain ⟨⟨run, trees, m⟩, tr⟩ := st
  simp only [switchOne, WorkerState.log, WorkerState.setTrees, WorkerState.setManager]
  generalize ext.tree_switch _ _ _ = r
  by_cases hr : r.1 = 0
  · refine ⟨[.pop .switch u, .tree_switch u.lsm_tree r.1], ?_, ?_, ?_, ?_, ?_, ?_, ?_, ?_⟩ <;>
      simp [hr, pops, switched, Event.ofSwitchLoop]
  · refine ⟨[.pop .switch u, .tree_switch u.lsm_tree r.1, .err r.1],
      ?_, ?_, ?_, ?_, ?_, ?_, ?_, ?_⟩ <;>
      simp [hr, pops, switched, Event.ofSwitchLoop]

/-- The loop over the switch queue, for a worker that serves Switch: it ends with
`ret = 0` and the switch queue empty; its events are the pop of each unit that was
queued, in order, each followed by the switch of its tree; the other queues are not
touched. -/
theorem workerSwitches_drains (ext : Externals) (cookie : WT_LSM_WORKER_ARGS)
    (hbit : FLD_ISSET cookie.flags WT_LSM_WORK_SWITCH = true) (fuel : Nat) (st : WorkerState)
    (hfuel : st.conn.lsm_manager.switchqh.length < fuel) :
    ∃ st1 evs, workerSwitches ext cookie fuel st = (.next, st1)
      ∧ st1.trace = st.trace ++ evs
      ∧ st1.conn.lsm_manager = { st.conn.lsm_manager with switchqh := [] }
      ∧ st1.conn.server_run = st.conn.server_run
      ∧ pops .switch evs = st.conn.lsm_manager.switchqh
      ∧ pops .app evs = [] ∧ pops .manager evs = []
      ∧ switched evs = st.conn.lsm_manager.switchqh.map (fun u => u.lsm_tree)
      ∧ ∀ e ∈ evs, e.ofSwitchLoop = true := by
  induction fuel generalizing st with
  | zero => omega
  | succ fuel ih =>
    cases hq : st.conn.lsm_manager.switchqh with
    | nil =>
      refine ⟨st, [], workerSwitches_nil ext cookie hbit fuel st hq, by simp, ?_, rfl, rfl,
        rfl, rfl, rfl, by simp⟩
      rw [← hq]
    | cons u rest =>
      rw [hq] at hfuel
      simp only [List.length_cons] at hfuel
      obtain ⟨evs1, g1, g2, g3, g4, g5, g6, g7, g8⟩ := switchOne_spec ext st u rest
      obtain ⟨st1, evs, h1, h2, h3, h4, h5, h6, h7, h8, h9⟩ := ih (switchOne ext st u rest)
        (by rw [g2]; simp; omega)
      refine ⟨st1, evs1 ++ evs, ?_, ?_, ?_, ?_, ?_, ?_, ?_, ?_, ?_⟩
      · rw [workerSwitches_cons ext cookie hbit fuel st u rest hq, h1]
      · rw [h2, g1, List.append_assoc]
      · rw [h3, g2]
      · rw [h4, g3]
      · rw [pops_append, g4, h5, g2]; rfl
      · rw [pops_append, g5, h6]; rfl
      · rw [pops_append, g6, h7]; rfl
      · rw [switched_append, g7, h8, g2]; rfl
      · intro e he
        rcases List.mem_append.1 he with he | he
        · exact g8 e he
        · exact h9 e he

/-- The loop over the switch queue, for a worker that does not serve Switch: nothing
happens. -/
theorem workerSwitches_skips (ext : Externals) (cookie : WT_LSM_WORKER_ARGS)
    (hbit : FLD_ISSET cookie.flags WT_LSM_WORK_SWITCH = false) (fuel : Nat) (st : WorkerState) :
    workerSwitches ext cookie (fuel + 1) st = (.next, st) := by
  simp [workerSwitches, hbit]

theorem Extends.refl (cookie : WT_LSM_WORKER_ARGS) (st : WorkerState) :
    Extends cookie st st [] := by
  constructor <;> simp [pops]

theorem Extends.trans {cookie : WT_LSM_WORKER_ARGS} {st st1 st2 : WorkerState}
    {evs1 evs2 : List Event} (h1 : Extends cookie st st1 evs1)
    (h2 : Extends cookie st1 st2 evs2) : Extends cookie st st2 (evs1 ++ evs2) := by
  constructor
  · rw [h2.trace, h1.trace, List.append_assoc]
  · intro e he
    rcases List.mem_append.1 he with he | he
    · exact h1.after e he
    · exact h2.after e he
  · rw [h2.switchq, h1.switchq]
  · rw [pops_append, List.append_assoc, h2.appq, h1.appq]
  · rw [pops_append, List.append_assoc, h2.managerq, h1.managerq]
  · rw [h2.workers, h1.workers]
  · rw [h2.run, h1.run]
  · intro u hu
    rw [pops_append] at hu
    rcases List.mem_append.1 hu with hu | hu
    · exact h1.appMask u hu
    · exact h2.appMask u hu
  · intro u hu
    rw [pops_append] at hu
    rcases List.mem_append.1 hu with hu | hu
    · exact h1.managerMask u hu
    · exact h2.managerMask u hu

/-- A pop with the filter Merge, spelled out on the manager queue. -/
theorem pop_merge (m : WT_LSM_MANAGER) :
    __lsm_pop_entry WT_LSM_WORK_MERGE m
      = match m.managerqh with
        | [] => .ok (0, none, m)
        | e :: rest =>
          if FLD_ISSET e.flags WT_LSM_WORK_MERGE then
            .ok (0, some e, { m with managerqh := rest })
          else .ok (0, none, m) := by
  obtain ⟨sq, aq, mq, w⟩ := m
  have : WT_LSM_WORK_MERGE ≠ WT_LSM_WORK_SWITCH := by decide
  cases mq <;> simp [__lsm_pop_entry, this]

/-- A pop with a filter containing Flush or Bloom, spelled out on the application
queue. -/
theorem pop_app (f : Nat) (m : WT_LSM_MANAGER)
    (hf : (FLD_ISSET f WT_LSM_WORK_FLUSH || FLD_ISSET f WT_LSM_WORK_BLOOM) = true) :
    __lsm_pop_entry f m
      = match m.appqh with
        | [] => .ok (0, none, m)
        | e :: rest =>
          if FLD_ISSET f e.flags then .ok (0, some e, { m with appqh := rest })
          else .ok (0, none, m) := by
  have hr : Queue.readBy .app f := by
    simp only [Bool.or_eq_true] at hf
    exact hf.symm
  have hne := readBy_app_ne hr
  have has := readBy_app_assert hr
  obtain ⟨sq, aq, mq, w⟩ := m
  cases aq <;> simp [__lsm_pop_entry, hne.1, hne.2, has]

/-- The merge part of the body: it ends with `ret = 0`, or on the assertion that the
unit popped is exactly a Merge unit. -/
theorem workerMerge_spec (ext : Externals) (cookie : WT_LSM_WORKER_ARGS) (st : WorkerState) :
    ∃ evs, Extends cookie st (workerMerge ext cookie st).2 evs ∧ pops .app evs = []
      ∧ ((workerMerge ext cookie st).1 = .next ∨ (workerMerge ext cookie st).1 = .assertFailed)
      := by
  obtain ⟨⟨run, trees, ⟨sq, aq, mq, w⟩⟩, tr⟩ := st
  by_cases hbit : FLD_ISSET cookie.flags WT_LSM_WORK_MERGE = true
  · cases mq with
    | nil =>
      refine ⟨[], ?_, rfl, ?_⟩
      · simp only [workerMerge, hbit, pop_merge]
        constructor <;> simp [pops, WorkerState.setManager]
      · simp [workerMerge, hbit, pop_merge]
    | cons e rest =>
      by_cases hm : FLD_ISSET e.flags WT_LSM_WORK_MERGE = true
      · by_cases he : e.flags = WT_LSM_WORK_MERGE
        · have hmm : FLD_ISSET WT_LSM_WORK_MERGE WT_LSM_WORK_MERGE = true := by decide
          refine ⟨[.pop .manager e, .merge e.lsm_tree cookie.id
            (ext.merge (tr ++ [Event.pop Queue.manager e]).length e.lsm_tree cookie.id
              trees).1], ?_, by simp [pops], ?_⟩
          · simp only [workerMerge, hbit, pop_merge, hm, WorkerState.setManager,
              WorkerState.log, WorkerState.setTrees]
            constructor <;> simp [pops, Event.afterSwitchLoop, hbit, hm, he, hmm]
          · simp [workerMerge, hbit, pop_merge, hm, he, hmm]
        · refine ⟨[.pop .manager e], ?_, by simp [pops], ?_⟩
          · simp only [workerMerge, hbit, pop_merge, hm, WorkerState.setManager,
              WorkerState.log]
            constructor <;> simp [pops, Event.afterSwitchLoop, hbit, hm, he]
          · simp [workerMerge, hbit, pop_merge, hm, he]
      · refine ⟨[], ?_, rfl, ?_⟩
        · simp only [workerMerge, hbit, pop_merge, hm]
          constructor <;> simp [pops, WorkerState.setManager]
        · simp [workerMerge, hbit, pop_merge, hm]
  · refine ⟨[], ?_, rfl, ?_⟩
    · simp only [workerMerge, hbit]
      constructor <;> simp [pops]
    · simp [workerMerge, hbit]

/-- How the body can be left with an error `c` after the events `evs`: `c` is not
`0` and the last event is the call, for the tree of a Flush unit, of
`__lsm_get_chunk_to_flush` or of `__wt_lsm_checkpoint_chunk` that returned `c`. -/
theorem workerFlush_spec (ext : Externals) (cookie : WT_LSM_WORKER_ARGS)
    (entry : WT_LSM_WORK_UNIT) (st : WorkerState) :
    ∃ evs, Extends cookie st (workerFlush ext cookie entry st).2 evs
      ∧ pops .app evs = []
      ∧ (workerFlush ext cookie entry st).1 ≠ .running
      ∧ ∀ c, (workerFlush ext cookie entry st).1 = .error c → c ≠ 0 ∧ ∃ chunk,
          evs.getLast? = some (.get_chunk_to_flush entry.lsm_tree c chunk)
          ∨ evs.getLast? = some (.checkpoint_chunk entry.lsm_tree chunk c) := by
  unfold workerFlush
  split
  · exact ⟨[], Extends.refl cookie st, rfl, by simp, by simp⟩
  · next t ht =>
    split
    · exact ⟨[], Extends.refl cookie st, rfl, by simp, by simp⟩
    · exact ⟨[], Extends.refl cookie st, rfl, by simp, by simp⟩
    · next ret chunk t1 hget =>
      have hx1 : Extends cookie st
          ((st.setTrees (storeTree entry.lsm_tree t1 st.conn.lsmqh)).log
            (.get_chunk_to_flush entry.lsm_tree ret chunk))
          [.get_chunk_to_flush entry.lsm_tree ret chunk] := by
        constructor <;>
          simp [pops, Event.afterSwitchLoop, WorkerState.log, WorkerState.setTrees]
      simp only []
      split
      · next hret =>
        refine ⟨_, hx1, by simp [pops], by simp, ?_⟩
        intro c hc
        simp only [LoopCtl.error.injEq] at hc
        subst hc
        exact ⟨hret, chunk, Or.inl (by simp)⟩
      · generalize hst1 : ((st.setTrees (storeTree entry.lsm_tree t1 st.conn.lsmqh)).log
            (.get_chunk_to_flush entry.lsm_tree ret chunk)) = st1 at hx1 ⊢
        generalize ext.checkpoint_chunk _ _ _ _ = r
        have hx2 : Extends cookie st1
            ((st1.setTrees r.2).log (.checkpoint_chunk entry.lsm_tree chunk r.1))
            [.checkpoint_chunk entry.lsm_tree chunk r.1] := by
          constructor <;>
            simp [pops, Event.afterSwitchLoop, WorkerState.log, WorkerState.setTrees]
        have hx := hx1.trans hx2
        split
        · next hr =>
          refine ⟨_, hx, by simp [pops], by simp, ?_⟩
          intro c hc
          simp only [LoopCtl.error.injEq] at hc
          subst hc
          exact ⟨hr, chunk, Or.inr (by simp)⟩
        · obtain ⟨evs, hm, hmapp, hctl⟩ := workerMerge_spec ext cookie
            ((st1.setTrees r.2).log (.checkpoint_chunk entry.lsm_tree chunk r.1))
          refine ⟨_, hx.trans hm, ?_, ?_, ?_⟩
          · simp [pops_append, pops, hmapp]
          · rcases hctl with h | h <;> simp [h]
          · intro c hc
            rcases hctl with h | h <;> simp [h] at hc

/-- A worker that serves neither Flush nor Bloom goes straight to the merge part. -/
theorem workerApp_skip (ext : Externals) (cookie : WT_LSM_WORKER_ARGS) (st : WorkerState)
    (hbits : (FLD_ISSET cookie.flags WT_LSM_WORK_FLUSH
      || FLD_ISSET cookie.flags WT_LSM_WORK_BLOOM) = false) :
    workerApp ext cookie st = workerMerge ext cookie st := by
  simp [workerApp, hbits]

/-- When the application queue is empty, or its head does not intersect the worker's
flags, nothing is popped and the merge part follows. -/
theorem workerApp_none (ext : Externals) (cookie : WT_LSM_WORKER_ARGS) (st : WorkerState)
    (hbits : (FLD_ISSET cookie.flags WT_LSM_WORK_FLUSH
      || FLD_ISSET cookie.flags WT_LSM_WORK_BLOOM) = true)
    (hq : ∀ e rest, st.conn.lsm_manager.appqh = e :: rest →
      FLD_ISSET cookie.flags e.flags = false) :
    workerApp ext cookie st = workerMerge ext cookie st := by
  obtain ⟨⟨run, trees, ⟨sq, aq, mq, w⟩⟩, tr⟩ := st
  cases aq with
  | nil => simp [workerApp, hbits, pop_app cookie.flags _ hbits, WorkerState.setManager]
  | cons e rest =>
    have := hq e rest rfl
    simp [workerApp, hbits, pop_app cookie.flags _ hbits, WorkerState.setManager, this]

/-- When the head of the application queue intersects the worker's flags and is
exactly a Flush unit, it is popped and flushed. -/
theorem workerApp_flush (ext : Externals) (cookie : WT_LSM_WORKER_ARGS) (st : WorkerState)
    (e : WT_LSM_WORK_UNIT) (rest : List WT_LSM_WORK_UNIT)
    (hbits : (FLD_ISSET cookie.flags WT_LSM_WORK_FLUSH
      || FLD_ISSET cookie.flags WT_LSM_WORK_BLOOM) = true)
    (hq : st.conn.lsm_manager.appqh = e :: rest)
    (hm : FLD_ISSET cookie.flags e.flags = true) (he : e.flags = WT_LSM_WORK_FLUSH) :
    workerApp ext cookie st = workerFlush ext cookie e
      ((st.setManager { st.conn.lsm_manager with appqh := rest }).log (.pop .app e)) := by
  obtain ⟨⟨run, trees, ⟨sq, aq, mq, w⟩⟩, tr⟩ := st
  simp only at hq
  subst hq
  have hm1 : FLD_ISSET cookie.flags WT_LSM_WORK_FLUSH = true := he ▸ hm
  simp [workerApp, hbits, pop_app cookie.flags _ hbits, WorkerState.setManager, hm1, he]

/-- When the head of the application queue intersects the worker's flags and is not
exactly a Flush unit, it is popped, nothing is done with it, and the merge part
follows. -/
theorem workerApp_other (ext : Externals) (cookie : WT_LSM_WORKER_ARGS) (st : WorkerState)
    (e : WT_LSM_WORK_UNIT) (rest : List WT_LSM_WORK_UNIT)
    (hbits : (FLD_ISSET cookie.flags WT_LSM_WORK_FLUSH
      || FLD_ISSET cookie.flags WT_LSM_WORK_BLOOM) = true)
    (hq : st.conn.lsm_manager.appqh = e :: rest)
    (hm : FLD_ISSET cookie.flags e.flags = true) (he : e.flags ≠ WT_LSM_WORK_FLUSH) :
    workerApp ext cookie st = workerMerge ext cookie
      ((st.setManager { st.conn.lsm_manager with appqh := rest }).log (.pop .app e)) := by
  obtain ⟨⟨run, trees, ⟨sq, aq, mq, w⟩⟩, tr⟩ := st
  simp only at hq
  subst hq
  simp [workerApp, hbits, pop_app cookie.flags _ hbits, WorkerState.setManager, hm, he]

theorem Extends.popApp (cookie : WT_LSM_WORKER_ARGS) (st : WorkerState) (e : WT_LSM_WORK_UNIT)
    (rest : List WT_LSM_WORK_UNIT) (hq : st.conn.lsm_manager.appqh = e :: rest)
    (hm : FLD_ISSET cookie.flags e.flags = true) :
    Extends cookie st
      ((st.setManager { st.conn.lsm_manager with appqh := rest }).log (.pop .app e))
      [.pop .app e] := by
  constructor <;>
    simp [pops, Event.afterSwitchLoop, WorkerState.log, WorkerState.setManager, hq, hm]

/-- The application part of the body and what follows it: the events account for
the units that left the queues; when it ends with an error `c`, then `c` is not `0`,
a unit with flags exactly Flush was popped from the application queue, and the last
event is the call for its flush that returned `c`. -/
theorem workerApp_spec (ext : Externals) (cookie : WT_LSM_WORKER_ARGS) (st : WorkerState) :
    ∃ evs, Extends cookie st (workerApp ext cookie st).2 evs
      ∧ (workerApp ext cookie st).1 ≠ .running
      ∧ ∀ c, (workerApp ext cookie st).1 = .error c → c ≠ 0 ∧ ∃ u chunk,
          u.flags = WT_LSM_WORK_FLUSH ∧ pops .app evs = [u]
          ∧ (evs.getLast? = some (.get_chunk_to_flush u.lsm_tree c chunk)
            ∨ evs.getLast? = some (.checkpoint_chunk u.lsm_tree chunk c)) := by
  have viaMerge : ∀ st1 evs1, Extends cookie st st1 evs1 →
      ∃ evs, Extends cookie st (workerMerge ext cookie st1).2 evs
        ∧ (workerMerge ext cookie st1).1 ≠ .running
        ∧ ∀ c, (workerMerge ext cookie st1).1 = .error c → c ≠ 0 ∧ ∃ u chunk,
            u.flags = WT_LSM_WORK_FLUSH ∧ pops .app evs = [u]
            ∧ (evs.getLast? = some (.get_chunk_to_flush u.lsm_tree c chunk)
              ∨ evs.getLast? = some (.checkpoint_chunk u.lsm_tree chunk c)) := by
    intro st1 evs1 hx
    obtain ⟨evs, hm, -, hctl⟩ := workerMerge_spec ext cookie st1
    refine ⟨_, hx.trans hm, ?_, ?_⟩
    · rcases hctl with h | h <;> simp [h]
    · intro c hc
      rcases hctl with h | h <;> simp [h] at hc
  cases hbits : (FLD_ISSET cookie.flags WT_LSM_WORK_FLUSH
      || FLD_ISSET cookie.flags WT_LSM_WORK_BLOOM) with
  | false =>
    rw [workerApp_skip ext cookie st hbits]
    exact viaMerge st [] (Extends.refl cookie st)
  | true =>
    cases hq : st.conn.lsm_manager.appqh with
    | nil =>
      rw [workerApp_none ext cookie st hbits (by simp [hq])]
      exact viaMerge st [] (Extends.refl cookie st)
    | cons e rest =>
      cases hm : FLD_ISSET cookie.flags e.flags with
      | false =>
        rw [workerApp_none ext cookie st hbits (by
          intro e1 rest1 h1
          rw [hq] at h1
          simp only [List.cons.injEq] at h1
          rw [← h1.1]; exact hm)]
        exact viaMerge st [] (Extends.refl cookie st)
      | true =>
        have hpop := Extends.popApp cookie st e rest hq hm
        by_cases he : e.flags = WT_LSM_WORK_FLUSH
        · rw [workerApp_flush ext cookie st e rest hbits hq hm he]
          obtain ⟨evs, hx, happ, hrun, herr⟩ := workerFlush_spec ext cookie e
            ((st.setManager { st.conn.lsm_manager with appqh := rest }).log (.pop .app e))
          refine ⟨_, hpop.trans hx, hrun, ?_⟩
          intro c hc
          obtain ⟨hc0, chunk, hlast⟩ := herr c hc
          refine ⟨hc0, e, chunk, he, by simp [pops_append, pops, happ], ?_⟩
          have hne : evs ≠ [] := by
            rintro rfl
            simp at hlast
          rw [List.getLast?_append_of_ne_nil _ hne]
          exact hlast
        · rw [workerApp_other ext cookie st e rest hbits hq hm he]
          exact viaMerge _ _ hpop

/-- With no tree open the worker sleeps and tests the loop condition again. -/
theorem worker_body_idle (ext : Externals) (cookie : WT_LSM_WORKER_ARGS)
    (conn : WT_CONNECTION_IMPL) (hidle : conn.lsmqh.isEmpty = true) :
    __lsm_worker_body ext cookie conn = (.next, { conn := conn, trace := [.sleep 10000] }) := by
  simp [__lsm_worker_body, hidle]

/-- With a tree open, the body is the loop over the switch queue followed by the
application part and the merge part. -/
theorem worker_body_run (ext : Externals) (cookie : WT_LSM_WORKER_ARGS)
    (conn : WT_CONNECTION_IMPL) (hopen : conn.lsmqh.isEmpty = false) :
    ∃ st1 pre post, BodyRun ext cookie conn (__lsm_worker_body ext cookie conn) st1 pre post := by
  cases hbit : FLD_ISSET cookie.flags WT_LSM_WORK_SWITCH with
  | true =>
    obtain ⟨st1, evs, h1, h2, h3, h4, h5, h6, h7, h8, h9⟩ := workerSwitches_drains ext cookie
      hbit (conn.lsm_manager.switchqh.length + 1) { conn := conn, trace := [] } (by simp)
    obtain ⟨post, hx, hrun, herr⟩ := workerApp_spec ext cookie st1
    have hbody : __lsm_worker_body ext cookie conn = workerApp ext cookie st1 := by
      simp [__lsm_worker_body, hopen, h1]
    rw [hbody]
    refine ⟨st1, evs, post, ?_⟩
    constructor
    · rfl
    · simpa using h2
    · exact h9
    · rw [h5, h3]; simp
    · rw [h8, h5]
    · exact h6
    · exact h7
    · rw [h3]
    · rw [h3]
    · rw [h3]
    · rw [h4]
    · intro _; rw [h3]
    · intro hf; rw [hbit] at hf; cases hf
    · exact hx
    · exact hrun
    · exact herr
  | false =>
    obtain ⟨post, hx, hrun, herr⟩ := workerApp_spec ext cookie { conn := conn, trace := [] }
    have hbody : __lsm_worker_body ext cookie conn
        = workerApp ext cookie { conn := conn, trace := [] } := by
      simp [__lsm_worker_body, hopen, workerSwitches_skips ext cookie hbit]
    rw [hbody]
    refine ⟨{ conn := conn, trace := [] }, [], post, ?_⟩
    constructor <;> first
      | rfl
      | exact hx
      | exact hrun
      | exact herr
      | (intro hf; rw [hbit] at hf; cases hf)
      | simp [pops, switched]

/-- The walk over the open trees when every allocation succeeds. -/
theorem inspectTrees_ok (calloc : Nat → Int) (hcalloc : ∀ n, calloc n = 0)
    (trees : List (TreePtr × WT_LSM_TREE)) (queued : Nat) (m : WT_LSM_MANAGER) :
    inspectTrees calloc trees queued m =
      { ret := 0
        queued := queued + (trees.filter (fun pt => needsMerge pt.2)).length
        manager := { m with managerqh := m.managerqh
          ++ (trees.filter (fun pt => needsMerge pt.2)).map (fun pt => mergeUnit pt.1) } } := by
  induction trees generalizing queued m with
  | nil => simp [inspectTrees]
  | cons pt trees ih =>
    obtain ⟨p, t⟩ := pt
    by_cases h : t.nchunks > 1 ∧ t.merge_throttle > 0
    · have hn : needsMerge t = true := by simp [needsMerge, h]
      simp only [inspectTrees, h, hcalloc, List.filter_cons, hn]
      simp only [and_self, if_true, ne_eq, not_true_eq_false, if_false]
      rw [ih]
      simp [mergeUnit, Nat.add_assoc, Nat.add_comm 1]
    · have hn : needsMerge t = false := by simp [needsMerge, h]
      simp only [inspectTrees, h, List.filter_cons, hn]
      simp only [if_false, Bool.false_eq_true]
      rw [ih]

/-- C6 (inspection pass). For every list of open trees and every manager, when the
allocations succeed, one inspection pass ends with `ret = 0` and appends to the tail
of the manager queue one unit for each tree with `nchunks > 1` and
`merge_throttle > 0`, in the order of the tree list, with flags exactly Merge and
that tree as target, and nothing for any other tree; `queued` counts them; the
switch queue, the application queue and the units already on the manager queue are
unchanged. -/
theorem C6_inspection_pass (calloc : Nat → Int) (trees : List (TreePtr × WT_LSM_TREE))
    (m : WT_LSM_MANAGER) (hcalloc : ∀ n, calloc n = 0) :
    inspectionPass calloc trees m =
      { ret := 0
        queued := (trees.filter (fun pt => needsMerge pt.2)).length
        manager :=
          { switchqh := m.switchqh
            appqh := m.appqh
            managerqh := m.managerqh
              ++ (trees.filter (fun pt => needsMerge pt.2)).map (fun pt => mergeUnit pt.1)
            lsm_workers := m.lsm_workers } } := by
  rw [inspectionPass, inspectTrees_ok calloc hcalloc]
  simp

/-- C6 at work: of three open trees, `(nchunks, merge_throttle)` being `(4, 1)`,
`(1, 1)` and `(4, 0)`, only the first gets a Merge unit, behind the unit already on
the manager queue. -/
theorem C6_inspection_pass_witness :
    inspectionPass (fun _ => 0)
        [(10, ⟨true, 1, [⟨true, 0⟩, ⟨true, 0⟩, ⟨true, 0⟩, ⟨false, 0⟩]⟩),
         (11, ⟨true, 1, [⟨false, 0⟩]⟩),
         (12, ⟨true, 0, [⟨true, 0⟩, ⟨true, 0⟩, ⟨true, 0⟩, ⟨false, 0⟩]⟩)]
        ⟨[⟨8, 11⟩], [⟨2, 10⟩], [⟨4, 12⟩], 3⟩ =
      { ret := 0
        queued := 1
        manager := ⟨[⟨8, 11⟩], [⟨2, 10⟩], [⟨4, 12⟩, ⟨4, 10⟩], 3⟩ } :=
  C6_inspection_pass (fun _ => 0) _ _ (fun _ => rfl)

/-- C7 (the primary chunk is pinned). On a working tree whose only chunk not on disk
is the last one, the primary chunk, `__lsm_get_chunk_to_flush` returns `0` without
tripping its assertion (`i < nchunks` holds for `i = nchunks - 1`), returns that
chunk and raises its reference count: for three chunks it returns chunk 2, for a
single chunk it returns chunk 0. -/
theorem C7_primary_chunk_is_pinned :
    __lsm_get_chunk_to_flush 0 0 ⟨true, 0, [⟨true, 0⟩, ⟨true, 0⟩, ⟨false, 0⟩]⟩
      = .ok (0, some 2, ⟨true, 0, [⟨true, 0⟩, ⟨true, 0⟩, ⟨false, 1⟩]⟩)
    ∧ __lsm_get_chunk_to_flush 0 0 ⟨true, 0, [⟨false, 4⟩]⟩
      = .ok (0, some 0, ⟨true, 0, [⟨false, 5⟩]⟩) := by
  decide

theorem pops_switch_after (evs : List Event) (h : ∀ e ∈ evs, e.afterSwitchLoop = true) :
    pops .switch evs = [] ∧ switched evs = [] := by
  induction evs with
  | nil => exact ⟨rfl, rfl⟩
  | cons e evs ih =>
    have he := h e (List.mem_cons_self _ _)
    have ih1 := ih (fun e1 h1 => h e1 (List.mem_cons_of_mem _ h1))
    cases e with
    | pop q u => cases q <;> simp_all [pops, switched, Event.afterSwitchLoop]
    | _ => simp_all [pops, switched, Event.afterSwitchLoop]

/-- The pops a run of the body shows are the units that left the queues. -/
theorem BodyRun.accounts {ext : Externals} {cookie : WT_LSM_WORKER_ARGS}
    {conn : WT_CONNECTION_IMPL} {r : LoopCtl × WorkerState} {st1 : WorkerState}
    {pre post : List Event} (hb : BodyRun ext cookie conn r st1 pre post) (q : Queue) :
    r.2.trace = pre ++ post
    ∧ pops q r.2.trace ++ q.contents r.2.conn.lsm_manager = q.contents conn.lsm_manager := by
  have htrace : r.2.trace = pre ++ post := by rw [hb.rest.trace, hb.loopTrace]
  refine ⟨htrace, ?_⟩
  rw [htrace, pops_append]
  cases q with
  | switch =>
    simp only [Queue.contents]
    rw [(pops_switch_after post hb.rest.after).1, List.append_nil, hb.rest.switchq]
    exact hb.loopSwitchq
  | app =>
    simp only [Queue.contents]
    rw [hb.loopAppPops, List.nil_append, hb.rest.appq, hb.loopAppq]
  | manager =>
    simp only [Queue.contents]
    rw [hb.loopManagerPops, List.nil_append, hb.rest.managerq, hb.loopManagerq]

/-- C8 (kind isolation of workers). For every capability mask, every connection whose
queues satisfy the queue-kind invariant and whatever the external functions return,
in one run of the body of the worker's loop: the units popped are exactly the units
that left the queues; every one of them has flags that are exactly one kind, and
that kind is in the worker's mask; so a worker whose mask excludes a kind `K`
removes no unit of kind `K`. -/
theorem C8_kind_isolation (ext : Externals) (cookie : WT_LSM_WORKER_ARGS)
    (conn : WT_CONNECTION_IMPL) (hinv : QueueKindInv conn.lsm_manager) :
    (∀ q, pops q (__lsm_worker_body ext cookie conn).2.trace
        ++ q.contents (__lsm_worker_body ext cookie conn).2.conn.lsm_manager
      = q.contents conn.lsm_manager)
    ∧ (∀ q u, u ∈ pops q (__lsm_worker_body ext cookie conn).2.trace →
        (u.flags = WT_LSM_WORK_SWITCH ∨ u.flags = WT_LSM_WORK_FLUSH
          ∨ u.flags = WT_LSM_WORK_BLOOM ∨ u.flags = WT_LSM_WORK_MERGE)
        ∧ FLD_ISSET cookie.flags u.flags = true)
    ∧ (∀ K, FLD_ISSET cookie.flags K = false →
        ∀ q u, u ∈ pops q (__lsm_worker_body ext cookie conn).2.trace → u.flags ≠ K) := by
  have key : (∀ q, pops q (__lsm_worker_body ext cookie conn).2.trace
        ++ q.contents (__lsm_worker_body ext cookie conn).2.conn.lsm_manager
      = q.contents conn.lsm_manager)
    ∧ (∀ q u, u ∈ pops q (__lsm_worker_body ext cookie conn).2.trace →
        (u.flags = WT_LSM_WORK_SWITCH ∨ u.flags = WT_LSM_WORK_FLUSH
          ∨ u.flags = WT_LSM_WORK_BLOOM ∨ u.flags = WT_LSM_WORK_MERGE)
        ∧ FLD_ISSET cookie.flags u.flags = true) := by
    cases hopen : conn.lsmqh.isEmpty with
    | true =>
      rw [worker_body_idle ext cookie conn hopen]
      exact ⟨fun q => by simp [pops], fun q u hu => by simp [pops] at hu⟩
    | false =>
      obtain ⟨st1, pre, post, hb⟩ := worker_body_run ext cookie conn hopen
      refine ⟨fun q => (hb.accounts q).2, ?_⟩
      intro q u hu
      have hmem : u ∈ q.contents conn.lsm_manager := by
        rw [← (hb.accounts q).2]
        exact List.mem_append_left _ hu
      rw [(hb.accounts q).1, pops_append] at hu
      cases q with
      | switch =>
        have hflags : u.flags = WT_LSM_WORK_SWITCH := hinv.1 u hmem
        refine ⟨Or.inl hflags, ?_⟩
        cases hbit : FLD_ISSET cookie.flags WT_LSM_WORK_SWITCH with
        | true => rw [hflags]; exact hbit
        | false =>
          rw [hb.skipped hbit, (pops_switch_after post hb.rest.after).1] at hu
          simp [pops] at hu
      | app =>
        have hflags := hinv.2.1 u hmem
        refine ⟨Or.inr (by rcases hflags with h | h <;> simp [h]), ?_⟩
        rw [hb.loopAppPops, List.nil_append] at hu
        exact hb.rest.appMask u hu
      | manager =>
        have hflags : u.flags = WT_LSM_WORK_MERGE := hinv.2.2 u hmem
        refine ⟨Or.inr (Or.inr (Or.inr hflags)), ?_⟩
        rw [hb.loopManagerPops, List.nil_append] at hu
        rw [hflags]
        exact (hb.rest.managerMask u hu).1
  refine ⟨key.1, key.2, ?_⟩
  intro K hK q u hu hflags
  have := (key.2 q u hu).2
  rw [hflags, hK] at this
  cases this

/-- C8 at work: the switch worker (flags Switch) on queues holding one unit each pops
the Switch unit only. -/
theorem C8_kind_isolation_witness :
    QueueKindInv busyConn.lsm_manager
    ∧ (∀ q, pops q (__lsm_worker_body quietExternals ⟨1, 8⟩ busyConn).2.trace
        ++ q.contents (__lsm_worker_body quietExternals ⟨1, 8⟩ busyConn).2.conn.lsm_manager
      = q.contents busyConn.lsm_manager)
    ∧ (∀ q u, u ∈ pops q (__lsm_worker_body quietExternals ⟨1, 8⟩ busyConn).2.trace →
        (u.flags = WT_LSM_WORK_SWITCH ∨ u.flags = WT_LSM_WORK_FLUSH
          ∨ u.flags = WT_LSM_WORK_BLOOM ∨ u.flags = WT_LSM_WORK_MERGE)
        ∧ FLD_ISSET 8 u.flags = true)
    ∧ (∀ K, FLD_ISSET 8 K = false →
        ∀ q u, u ∈ pops q (__lsm_worker_body quietExternals ⟨1, 8⟩ busyConn).2.trace →
          u.flags ≠ K) :=
  ⟨by decide, C8_kind_isolation quietExternals ⟨1, 8⟩ busyConn (by decide)⟩

/-- C9 (switch priority). For every worker whose mask contains Switch, every
connection with a tree open and whatever the external functions return, the events
of one run of the body of the worker's loop split in two: first the events of the
loop over the switch queue, in which every unit that was on the switch queue is
popped and its tree passed to `__wt_lsm_tree_switch`, in queue order, and no unit
is popped from the application or the manager queue; then all the other events,
among them every pop from the application and the manager queue, with no pop from
the switch queue and no switch. The switch queue is empty afterwards. -/
theorem C9_switch_priority (ext : Externals) (cookie : WT_LSM_WORKER_ARGS)
    (conn : WT_CONNECTION_IMPL) (hopen : conn.lsmqh.isEmpty = false)
    (hswitch : FLD_ISSET cookie.flags WT_LSM_WORK_SWITCH = true) :
    ∃ pre post, (__lsm_worker_body ext cookie conn).2.trace = pre ++ post
      ∧ pops .switch pre = conn.lsm_manager.switchqh
      ∧ switched pre = conn.lsm_manager.switchqh.map (fun u => u.lsm_tree)
      ∧ pops .app pre = [] ∧ pops .manager pre = []
      ∧ (∀ e ∈ pre, e.ofSwitchLoop = true)
      ∧ (∀ e ∈ post, e.afterSwitchLoop = true)
      ∧ pops .switch post = [] ∧ switched post = []
      ∧ (__lsm_worker_body ext cookie conn).2.conn.lsm_manager.switchqh = [] := by
  obtain ⟨st1, pre, post, hb⟩ := worker_body_run ext cookie conn hopen
  have hdrained := hb.drained hswitch
  have hsq : pops .switch pre = conn.lsm_manager.switchqh := by
    have := hb.loopSwitchq
    rw [hdrained, List.append_nil] at this
    exact this
  refine ⟨pre, post, (hb.accounts .switch).1, hsq, ?_, hb.loopAppPops, hb.loopManagerPops,
    hb.inLoop, hb.rest.after, (pops_switch_after post hb.rest.after).1,
    (pops_switch_after post hb.rest.after).2, ?_⟩
  · rw [hb.loopTrees, hsq]
  · rw [hb.rest.switchq, hdrained]

/-- C9 at work, with one unit seeded on each queue and a worker serving all four
kinds: the Switch unit is popped and switched before the Flush unit is popped. -/
theorem C9_switch_priority_witness :
    (busyConn.lsmqh.isEmpty = false ∧ FLD_ISSET 15 WT_LSM_WORK_SWITCH = true)
    ∧ (∃ pre post, (__lsm_worker_body quietExternals ⟨2, 15⟩ busyConn).2.trace = pre ++ post
      ∧ pops .switch pre = busyConn.lsm_manager.switchqh
      ∧ switched pre = busyConn.lsm_manager.switchqh.map (fun u => u.lsm_tree)
      ∧ pops .app pre = [] ∧ pops .manager pre = []
      ∧ (∀ e ∈ pre, e.ofSwitchLoop = true)
      ∧ (∀ e ∈ post, e.afterSwitchLoop = true)
      ∧ pops .switch post = [] ∧ switched post = []
      ∧ (__lsm_worker_body quietExternals ⟨2, 15⟩ busyConn).2.conn.lsm_manager.switchqh = [])
    ∧ (__lsm_worker_body quietExternals ⟨2, 15⟩ busyConn).2.trace =
        [.pop .switch ⟨8, 7⟩, .tree_switch 7 0, .pop .app ⟨2, 7⟩,
         .get_chunk_to_flush 7 0 (some 1), .checkpoint_chunk 7 (some 1) 0,
         .pop .manager ⟨4, 7⟩, .merge 7 2 0] :=
  ⟨⟨by decide, by decide⟩,
    C9_switch_priority quietExternals ⟨2, 15⟩ busyConn (by decide) (by decide), by decide⟩

/-- C10 (pop on the manager queue). For every manager, `__lsm_pop_entry` called with
Merge returns `0`; when the manager queue has a head whose flags contain Merge it
returns that head and removes it; in every other case it returns `NULL` and the
manager is exactly as before. The switch and application queues are the same in
both cases. -/
theorem C10_manager_queue_pop (m : WT_LSM_MANAGER) :
    (∀ e rest, m.managerqh = e :: rest → e.flags &&& WT_LSM_WORK_MERGE ≠ 0 →
        __lsm_pop_entry WT_LSM_WORK_MERGE m = .ok (0, some e,
          { switchqh := m.switchqh, appqh := m.appqh, managerqh := rest,
            lsm_workers := m.lsm_workers }))
    ∧ ((¬ ∃ e rest, m.managerqh = e :: rest ∧ e.flags &&& WT_LSM_WORK_MERGE ≠ 0) →
        __lsm_pop_entry WT_LSM_WORK_MERGE m = .ok (0, none, m)) := by
  constructor
  · intro e rest hq hm
    have hm1 : FLD_ISSET e.flags WT_LSM_WORK_MERGE = true := by simpa [FLD_ISSET] using hm
    rw [pop_merge, hq]
    simp [hm1]
  · intro hno
    rw [pop_merge]
    cases hq : m.managerqh with
    | nil => rfl
    | cons e rest =>
      have hm1 : FLD_ISSET e.flags WT_LSM_WORK_MERGE = false := by
        have : ¬ (e.flags &&& WT_LSM_WORK_MERGE ≠ 0) := fun h => hno ⟨e, rest, hq, h⟩
        simpa [FLD_ISSET] using this
      simp [hm1]

/-- C10 at work: a manager queue headed by a Merge unit, the other queues not
empty. -/
theorem C10_manager_queue_pop_witness :
    [(⟨4, 2⟩ : WT_LSM_WORK_UNIT), ⟨4, 3⟩] = ⟨4, 2⟩ :: [⟨4, 3⟩]
    ∧ (4 &&& WT_LSM_WORK_MERGE ≠ 0)
    ∧ __lsm_pop_entry WT_LSM_WORK_MERGE ⟨[⟨8, 1⟩], [⟨2, 7⟩], [⟨4, 2⟩, ⟨4, 3⟩], 3⟩
        = .ok (0, some ⟨4, 2⟩, ⟨[⟨8, 1⟩], [⟨2, 7⟩], [⟨4, 3⟩], 3⟩) :=
  ⟨rfl, by decide,
    (C10_manager_queue_pop ⟨[⟨8, 1⟩], [⟨2, 7⟩], [⟨4, 2⟩, ⟨4, 3⟩], 3⟩).1 ⟨4, 2⟩ [⟨4, 3⟩] rfl
      (by decide)⟩

/-- C11 (push enqueues on exactly one queue). For every manager, tree and kind: when
the allocation succeeds, a push of Switch appends the new unit (flags the kind,
target the tree) at the tail of the switch queue, a push of Flush or Bloom at the
tail of the application queue and a push of Merge at the tail of the manager queue;
the push returns `0`, the units already queued keep their order and the other two
queues are unchanged. When the allocation fails the push returns its error and the
manager is unchanged. -/
theorem C11_push_one_queue (calloc : Int) (type : Nat) (tree : TreePtr) (m : WT_LSM_MANAGER) :
    (type = WT_LSM_WORK_SWITCH →
      __wt_lsm_push_entry 0 type tree m = (0,
        { switchqh := m.switchqh ++ [{ flags := type, lsm_tree := tree }]
          appqh := m.appqh, managerqh := m.managerqh, lsm_workers := m.lsm_workers }))
    ∧ (type = WT_LSM_WORK_FLUSH ∨ type = WT_LSM_WORK_BLOOM →
      __wt_lsm_push_entry 0 type tree m = (0,
        { switchqh := m.switchqh
          appqh := m.appqh ++ [{ flags := type, lsm_tree := tree }]
          managerqh := m.managerqh, lsm_workers := m.lsm_workers }))
    ∧ (type = WT_LSM_WORK_MERGE →
      __wt_lsm_push_entry 0 type tree m = (0,
        { switchqh := m.switchqh, appqh := m.appqh
          managerqh := m.managerqh ++ [{ flags := type, lsm_tree := tree }]
          lsm_workers := m.lsm_workers }))
    ∧ (calloc ≠ 0 → __wt_lsm_push_entry calloc type tree m = (calloc, m)) := by
  refine ⟨?_, ?_, ?_, ?_⟩
  · intro h
    rw [push_admitted .switch type tree m h]; rfl
  · intro h
    rw [push_admitted .app type tree m h.symm]; rfl
  · intro h
    rw [push_admitted .manager type tree m h]; rfl
  · intro h
    simp [__wt_lsm_push_entry, h]

/-- C11 at work: one Switch unit pushed on three empty queues leaves the application
and manager queues empty; a failed allocation changes nothing. -/
theorem C11_push_one_queue_witness :
    WT_LSM_WORK_SWITCH = WT_LSM_WORK_SWITCH
    ∧ __wt_lsm_push_entry 0 WT_LSM_WORK_SWITCH 7 (emptyManager 3)
        = (0, ⟨[⟨8, 7⟩], [], [], 3⟩)
    ∧ (12 : Int) ≠ 0
    ∧ __wt_lsm_push_entry 12 WT_LSM_WORK_SWITCH 7 (emptyManager 3) = (12, emptyManager 3) :=
  ⟨rfl, (C11_push_one_queue 12 WT_LSM_WORK_SWITCH 7 (emptyManager 3)).1 rfl, by decide,
    (C11_push_one_queue 12 WT_LSM_WORK_SWITCH 7 (emptyManager 3)).2.2.2 (by decide)⟩

/-- C14 (pop on the switch queue). For every manager, `__lsm_pop_entry` called with
Switch returns `0`; when the switch queue is not empty it returns the head, whatever
its flags, and removes it; when it is empty it returns `NULL` and the manager is as
before. The application and manager queues are unchanged in both cases. -/
theorem C14_switch_queue_pop (m : WT_LSM_MANAGER) :
    (∀ e rest, m.switchqh = e :: rest →
        __lsm_pop_entry WT_LSM_WORK_SWITCH m = .ok (0, some e,
          { switchqh := rest, appqh := m.appqh, managerqh := m.managerqh,
            lsm_workers := m.lsm_workers }))
    ∧ (m.switchqh = [] → __lsm_pop_entry WT_LSM_WORK_SWITCH m = .ok (0, none, m)) := by
  constructor
  · intro e rest hq
    rw [pop_switch, hq]; rfl
  · intro hq
    exact pop_nil .switch WT_LSM_WORK_SWITCH m rfl hq

/-- C14 at work: a switch queue headed by a unit whose flags are Flush, not Switch;
the head is returned all the same. -/
theorem C14_switch_queue_pop_witness :
    [(⟨2, 5⟩ : WT_LSM_WORK_UNIT), ⟨8, 6⟩] = ⟨2, 5⟩ :: [⟨8, 6⟩]
    ∧ __lsm_pop_entry WT_LSM_WORK_SWITCH ⟨[⟨2, 5⟩, ⟨8, 6⟩], [⟨1, 7⟩], [⟨4, 2⟩], 3⟩
        = .ok (0, some ⟨2, 5⟩, ⟨[⟨8, 6⟩], [⟨1, 7⟩], [⟨4, 2⟩], 3⟩) :=
  ⟨rfl, (C14_switch_queue_pop ⟨[⟨2, 5⟩, ⟨8, 6⟩], [⟨1, 7⟩], [⟨4, 2⟩], 3⟩).1 ⟨2, 5⟩ [⟨8, 6⟩] rfl⟩

/-- C19 (a push of a type that is not one kind is dropped). For every type value
that is not exactly Switch, Flush, Bloom or Merge, every tree and every manager,
`__wt_lsm_push_entry` returns what the allocation returned, so `0` when the unit was
allocated, and the manager is unchanged: the unit is on no queue, and a pop after
the push returns what it would have returned before it. -/
theorem C19_push_dropped (calloc : Int) (type : Nat) (tree : TreePtr) (m : WT_LSM_MANAGER)
    (hs : type ≠ WT_LSM_WORK_SWITCH) (hf : type ≠ WT_LSM_WORK_FLUSH)
    (hb : type ≠ WT_LSM_WORK_BLOOM) (hm : type ≠ WT_LSM_WORK_MERGE) :
    __wt_lsm_push_entry calloc type tree m = (calloc, m)
    ∧ __wt_lsm_push_entry 0 type tree m = (0, m)
    ∧ ∀ filter, __lsm_pop_entry filter (__wt_lsm_push_entry calloc type tree m).2
        = __lsm_pop_entry filter m := by
  have h0 : ∀ c : Int, __wt_lsm_push_entry c type tree m = (c, m) := by
    intro c
    by_cases hc : c = 0
    · subst hc
      simp [__wt_lsm_push_entry, hs, hf, hb, hm]
    · simp [__wt_lsm_push_entry, hc]
  refine ⟨h0 calloc, h0 0, ?_⟩
  intro filter
  rw [h0 calloc]

/-- C19 at work: the type Flush|Bloom pushed on a manager with units queued. -/
theorem C19_push_dropped_witness :
    (3 ≠ WT_LSM_WORK_SWITCH ∧ 3 ≠ WT_LSM_WORK_FLUSH ∧ 3 ≠ WT_LSM_WORK_BLOOM
      ∧ 3 ≠ WT_LSM_WORK_MERGE)
    ∧ (__wt_lsm_push_entry 0 3 7 ⟨[⟨8, 1⟩], [⟨2, 7⟩], [⟨4, 2⟩], 3⟩
        = (0, ⟨[⟨8, 1⟩], [⟨2, 7⟩], [⟨4, 2⟩], 3⟩)
      ∧ __wt_lsm_push_entry 0 3 7 ⟨[⟨8, 1⟩], [⟨2, 7⟩], [⟨4, 2⟩], 3⟩
        = (0, ⟨[⟨8, 1⟩], [⟨2, 7⟩], [⟨4, 2⟩], 3⟩)
      ∧ ∀ filter, __lsm_pop_entry filter
          (__wt_lsm_push_entry 0 3 7 ⟨[⟨8, 1⟩], [⟨2, 7⟩], [⟨4, 2⟩], 3⟩).2
        = __lsm_pop_entry filter ⟨[⟨8, 1⟩], [⟨2, 7⟩], [⟨4, 2⟩], 3⟩) :=
  ⟨by decide, C19_push_dropped 0 3 7 ⟨[⟨8, 1⟩], [⟨2, 7⟩], [⟨4, 2⟩], 3⟩ (by decide) (by decide)
    (by decide) (by decide)⟩

/-- Where the scan of the chunks ends: at the first chunk that is not on disk, or
past the last chunk when all are on disk. -/
theorem scanOnDisk_cases (chunks : List WT_LSM_CHUNK) (k : Nat) :
    (∃ j c, scanOnDisk chunks k = k + j ∧ chunks[j]? = some c ∧ c.ondisk = false)
    ∨ (scanOnDisk chunks k = k + chunks.length ∧ ∀ c ∈ chunks, c.ondisk = true) := by
  induction chunks generalizing k with
  | nil => exact Or.inr ⟨rfl, by simp⟩
  | cons d rest ih =>
    cases hd : d.ondisk with
    | false => exact Or.inl ⟨0, d, by simp [scanOnDisk, hd], by simp, hd⟩
    | true =>
      rcases ih (k + 1) with ⟨j, c, h1, h2, h3⟩ | ⟨h1, h2⟩
      · refine Or.inl ⟨j + 1, c, ?_, by simpa using h2, h3⟩
        simp only [scanOnDisk, hd, if_true, h1]; omega
      · refine Or.inr ⟨?_, ?_⟩
        · simp only [scanOnDisk, hd, if_true, h1, List.length_cons]; omega
        · intro c hc
          rcases List.mem_cons.1 hc with rfl | hc
          · exact hd
          · exact h2 c hc

/-- C18 (index safety of the chunk scan). On a working tree whose lock was taken,
the largest chunk index `__lsm_get_chunk_to_flush` reads is the index `i` at which
its scan ends (the scan reads `chunk[j]` only for `j < nchunks`, the test after it
reads `chunk[i]`). That index is less than `nchunks` exactly when some chunk of
`chunk[0..nchunks-1]` is not on disk, and then the function returns, no assertion
failing. When all chunks are on disk (also when there is none) the scan ends with
`i = nchunks`, and the function reads `chunk[nchunks]`, which is past the last valid
chunk. -/
theorem C18_chunk_scan_index (lock unlock : Int) (t : WT_LSM_TREE) (hlock : lock = 0)
    (hw : t.working = true) :
    (scanOnDisk t.chunk 0 < t.nchunks ↔ ∃ c ∈ t.chunk, c.ondisk = false)
    ∧ ((∃ c ∈ t.chunk, c.ondisk = false) →
        ∃ r, __lsm_get_chunk_to_flush lock unlock t = .ok r)
    ∧ ((∀ c ∈ t.chunk, c.ondisk = true) →
        scanOnDisk t.chunk 0 = t.nchunks ∧ t.chunk[t.nchunks]? = none
        ∧ __lsm_get_chunk_to_flush lock unlock t = .invalidRead) := by
  subst hlock
  have hall : (∀ c ∈ t.chunk, c.ondisk = true) →
      scanOnDisk t.chunk 0 = t.nchunks ∧ t.chunk[t.nchunks]? = none
      ∧ __lsm_get_chunk_to_flush 0 unlock t = .invalidRead := by
    intro h
    have hscan : scanOnDisk t.chunk 0 = t.nchunks := by
      rcases scanOnDisk_cases t.chunk 0 with ⟨j, c, -, h2, h3⟩ | ⟨h1, -⟩
      · have := h c (List.getElem?_mem h2)
        rw [h3] at this; cases this
      · rw [h1]; simp [WT_LSM_TREE.nchunks]
    have hnone : t.chunk[t.nchunks]? = none := by
      simp [WT_LSM_TREE.nchunks]
    refine ⟨hscan, hnone, ?_⟩
    simp [__lsm_get_chunk_to_flush, hw, hscan, hnone]
  have hsome : (∃ c ∈ t.chunk, c.ondisk = false) →
      scanOnDisk t.chunk 0 < t.nchunks ∧ ∃ r, __lsm_get_chunk_to_flush 0 unlock t = .ok r := by
    rintro ⟨c, hc, hcd⟩
    rcases scanOnDisk_cases t.chunk 0 with ⟨j, d, h1, h2, h3⟩ | ⟨-, h2⟩
    · have hj : scanOnDisk t.chunk 0 = j := by rw [h1]; omega
      have hlt : j < t.nchunks := by
        unfold WT_LSM_TREE.nchunks
        by_contra hge
        rw [List.getElem?_eq_none (by omega)] at h2
        cases h2
      refine ⟨hj ▸ hlt, ?_⟩
      by_cases hu : unlock = 0
      · exact ⟨(0, some j, pinChunk t j),
          by simp [__lsm_get_chunk_to_flush, hw, hj, h2, h3, hlt, hu]⟩
      · exact ⟨(unlock, some j, pinChunk t j),
          by simp [__lsm_get_chunk_to_flush, hw, hj, h2, h3, hlt, hu]⟩
    · have := h2 c hc
      rw [hcd] at this; cases this
  refine ⟨⟨?_, fun h => (hsome h).1⟩, fun h => (hsome h).2, hall⟩
  intro hlt
  by_contra hno
  have hallon : ∀ c ∈ t.chunk, c.ondisk = true := by
    intro c hc
    cases hcd : c.ondisk with
    | true => rfl
    | false => exact absurd ⟨c, hc, hcd⟩ hno
  rw [(hall hallon).1] at hlt
  exact Nat.lt_irrefl _ hlt

/-- C18 at work: a working tree of two chunks, both on disk; the scan ends at 2 and
the function reads `chunk[2]`. -/
theorem C18_chunk_scan_index_witness :
    ((0 : Int) = 0 ∧ (⟨true, 0, [⟨true, 0⟩, ⟨true, 3⟩]⟩ : WT_LSM_TREE).working = true)
    ∧ (∀ c ∈ (⟨true, 0, [⟨true, 0⟩, ⟨true, 3⟩]⟩ : WT_LSM_TREE).chunk, c.ondisk = true)
    ∧ scanOnDisk [⟨true, 0⟩, ⟨true, 3⟩] 0 = 2
    ∧ __lsm_get_chunk_to_flush 0 0 ⟨true, 0, [⟨true, 0⟩, ⟨true, 3⟩]⟩ = .invalidRead :=
  have h := (C18_chunk_scan_index 0 0 ⟨true, 0, [⟨true, 0⟩, ⟨true, 3⟩]⟩ rfl rfl).2.2
    (by decide)
  ⟨⟨rfl, rfl⟩, by decide, h.1, h.2.2⟩

/-- What so many passes leave on the queues when the allocations succeed. -/
theorem inspectionPasses_ok (calloc : Nat → Int) (hcalloc : ∀ n, calloc n = 0)
    (trees : List (TreePtr × WT_LSM_TREE)) (k : Nat) (m : WT_LSM_MANAGER) :
    inspectionPasses calloc trees k m =
      { m with managerqh := m.managerqh ++ (List.replicate k (mergeUnits trees)).flatten } := by
  induction k generalizing m with
  | zero => simp [inspectionPasses]
  | succ k ih =>
    rw [inspectionPasses, inspectionPass, inspectTrees_ok calloc hcalloc, ih]
    simp [mergeUnits, List.replicate_succ]

/-- C20 (the inspection does not deduplicate). For every list of open trees, every
manager and every number `k` of consecutive inspection passes with nothing popped in
between, when the allocations succeed: each pass appends the Merge units of the
trees with `nchunks > 1` and `merge_throttle > 0` once more, whatever is already on
the manager queue, so the manager queue is the old one followed by `k` copies of
these units, its length grows by `k` times their number, and the other queues are
unchanged. -/
theorem C20_no_deduplication (calloc : Nat → Int) (trees : List (TreePtr × WT_LSM_TREE))
    (k : Nat) (m : WT_LSM_MANAGER) (hcalloc : ∀ n, calloc n = 0) :
    (inspectionPasses calloc trees k m).managerqh
        = m.managerqh ++ (List.replicate k (mergeUnits trees)).flatten
    ∧ (inspectionPasses calloc trees k m).managerqh.length
        = m.managerqh.length + k * (trees.filter (fun pt => needsMerge pt.2)).length
    ∧ (inspectionPasses calloc trees k m).switchqh = m.switchqh
    ∧ (inspectionPasses calloc trees k m).appqh = m.appqh := by
  rw [inspectionPasses_ok calloc hcalloc]
  refine ⟨rfl, ?_, rfl, rfl⟩
  simp [mergeUnits]

/-- C20 at work: three passes over one tree with four chunks and a throttle of 1,
the manager queue already holding a Merge unit for it. -/
theorem C20_no_deduplication_witness :
    (inspectionPasses (fun _ => 0)
        [(10, ⟨true, 1, [⟨true, 0⟩, ⟨true, 0⟩, ⟨true, 0⟩, ⟨false, 0⟩]⟩)] 3
        ⟨[], [], [⟨4, 10⟩], 3⟩).managerqh
      = [⟨4, 10⟩] ++ (List.replicate 3
          (mergeUnits [(10, ⟨true, 1, [⟨true, 0⟩, ⟨true, 0⟩, ⟨true, 0⟩, ⟨false, 0⟩]⟩)])).flatten
    ∧ (inspectionPasses (fun _ => 0)
        [(10, ⟨true, 1, [⟨true, 0⟩, ⟨true, 0⟩, ⟨true, 0⟩, ⟨false, 0⟩]⟩)] 3
        ⟨[], [], [⟨4, 10⟩], 3⟩).managerqh.length = 1 + 3 * 1
    ∧ (inspectionPasses (fun _ => 0)
        [(10, ⟨true, 1, [⟨true, 0⟩, ⟨true, 0⟩, ⟨true, 0⟩, ⟨false, 0⟩]⟩)] 3
        ⟨[], [], [⟨4, 10⟩], 3⟩).switchqh = []
    ∧ (inspectionPasses (fun _ => 0)
        [(10, ⟨true, 1, [⟨true, 0⟩, ⟨true, 0⟩, ⟨true, 0⟩, ⟨false, 0⟩]⟩)] 3
        ⟨[], [], [⟨4, 10⟩], 3⟩).appqh = [] :=
  C20_no_deduplication (fun _ => 0) _ 3 ⟨[], [], [⟨4, 10⟩], 3⟩ (fun _ => rfl)

/-- The merge part removes at most the head of the manager queue. -/
theorem workerMerge_queues (ext : Externals) (cookie : WT_LSM_WORKER_ARGS) (st : WorkerState) :
    MergeStep cookie st.conn.lsm_manager (workerMerge ext cookie st).2.conn.lsm_manager := by
  obtain ⟨⟨run, trees, ⟨sq, aq, mq, w⟩⟩, tr⟩ := st
  cases hbit : FLD_ISSET cookie.flags WT_LSM_WORK_MERGE with
  | false => simp [workerMerge, hbit, MergeStep]
  | true =>
    cases mq with
    | nil => simp [workerMerge, hbit, pop_merge, MergeStep, WorkerState.setManager]
    | cons e rest =>
      cases hm : FLD_ISSET e.flags WT_LSM_WORK_MERGE with
      | false => simp [workerMerge, hbit, pop_merge, hm, MergeStep, WorkerState.setManager]
      | true =>
        have hmm : FLD_ISSET WT_LSM_WORK_MERGE WT_LSM_WORK_MERGE = true := by decide
        by_cases he : e.flags = WT_LSM_WORK_MERGE
        · simp [workerMerge, hbit, pop_merge, hmm, he, MergeStep, WorkerState.setManager,
            WorkerState.log, WorkerState.setTrees]
        · simp [workerMerge, hbit, pop_merge, hm, he, MergeStep, WorkerState.setManager,
            WorkerState.log, WorkerState.setTrees]

/-- A flush and the merge part after it remove at most the head of the manager
queue. -/
theorem workerFlush_queues (ext : Externals) (cookie : WT_LSM_WORKER_ARGS)
    (entry : WT_LSM_WORK_UNIT) (st : WorkerState) :
    MergeStep cookie st.conn.lsm_manager
      (workerFlush ext cookie entry st).2.conn.lsm_manager := by
  have hrefl : MergeStep cookie st.conn.lsm_manager st.conn.lsm_manager :=
    ⟨rfl, rfl, rfl, Or.inl rfl⟩
  unfold workerFlush
  split
  · exact hrefl
  · split
    · exact hrefl
    · exact hrefl
    · simp only []
      split
      · exact hrefl
      · split
        · exact hrefl
        · exact workerMerge_queues ext cookie _

/-- The application part and the merge part remove at most the head of the
application queue and at most the head of the manager queue. -/
theorem workerApp_queues (ext : Externals) (cookie : WT_LSM_WORKER_ARGS) (st : WorkerState) :
    AppStep cookie st.conn.lsm_manager (workerApp ext cookie st).2.conn.lsm_manager := by
  have viaMerge : ∀ m1, MergeStep cookie st.conn.lsm_manager m1 →
      AppStep cookie st.conn.lsm_manager m1 :=
    fun m1 h => ⟨h.1, h.2.2.1, Or.inl h.2.1, h.2.2.2⟩
  cases hbits : (FLD_ISSET cookie.flags WT_LSM_WORK_FLUSH
      || FLD_ISSET cookie.flags WT_LSM_WORK_BLOOM) with
  | false =>
    rw [workerApp_skip ext cookie st hbits]
    exact viaMerge _ (workerMerge_queues ext cookie st)
  | true =>
    cases hq : st.conn.lsm_manager.appqh with
    | nil =>
      rw [workerApp_none ext cookie st hbits (by simp [hq])]
      exact viaMerge _ (workerMerge_queues ext cookie st)
    | cons e rest =>
      cases hm : FLD_ISSET cookie.flags e.flags with
      | false =>
        rw [workerApp_none ext cookie st hbits (by
          intro e1 rest1 h1
          rw [hq] at h1
          simp only [List.cons.injEq] at h1
          rw [← h1.1]; exact hm)]
        exact viaMerge _ (workerMerge_queues ext cookie st)
      | true =>
        have popped : ∀ m1, MergeStep cookie
            ((st.setManager { st.conn.lsm_manager with appqh := rest }).log
              (.pop .app e)).conn.lsm_manager m1 →
            AppStep cookie st.conn.lsm_manager m1 := by
          intro m1 h
          simp only [WorkerState.log, WorkerState.setManager] at h
          exact ⟨h.1, h.2.2.1, Or.inr ⟨hbits, e, by rw [h.2.1, hq]⟩, h.2.2.2⟩
        by_cases he : e.flags = WT_LSM_WORK_FLUSH
        · rw [workerApp_flush ext cookie st e rest hbits hq hm he]
          exact popped _ (workerFlush_queues ext cookie e _)
        · rw [workerApp_other ext cookie st e rest hbits hq hm he]
          exact popped _ (workerMerge_queues ext cookie _)

/-- C16 (one unit of the application queue and one of the manager queue per
iteration). For every capability mask, every connection with a tree open and
whatever the external functions return, one run of the body of the worker's loop:
leaves the switch queue empty when the mask contains Switch and as it was when not;
removes from the application queue nothing or its head only, and nothing when the
mask contains neither Flush nor Bloom; removes from the manager queue nothing or its
head only, and nothing when the mask does not contain Merge. The units not removed
stay queued in their order. -/
theorem C16_one_unit_per_iteration (ext : Externals) (cookie : WT_LSM_WORKER_ARGS)
    (conn : WT_CONNECTION_IMPL) (hopen : conn.lsmqh.isEmpty = false) :
    (FLD_ISSET cookie.flags WT_LSM_WORK_SWITCH = true →
      (__lsm_worker_body ext cookie conn).2.conn.lsm_manager.switchqh = [])
    ∧ (FLD_ISSET cookie.flags WT_LSM_WORK_SWITCH = false →
      (__lsm_worker_body ext cookie conn).2.conn.lsm_manager.switchqh
        = conn.lsm_manager.switchqh)
    ∧ ((__lsm_worker_body ext cookie conn).2.conn.lsm_manager.appqh = conn.lsm_manager.appqh
      ∨ ∃ e, conn.lsm_manager.appqh
          = e :: (__lsm_worker_body ext cookie conn).2.conn.lsm_manager.appqh)
    ∧ ((FLD_ISSET cookie.flags WT_LSM_WORK_FLUSH || FLD_ISSET cookie.flags WT_LSM_WORK_BLOOM)
        = false →
      (__lsm_worker_body ext cookie conn).2.conn.lsm_manager.appqh = conn.lsm_manager.appqh)
    ∧ ((__lsm_worker_body ext cookie conn).2.conn.lsm_manager.managerqh
        = conn.lsm_manager.managerqh
      ∨ ∃ e, conn.lsm_manager.managerqh
          = e :: (__lsm_worker_body ext cookie conn).2.conn.lsm_manager.managerqh)
    ∧ (FLD_ISSET cookie.flags WT_LSM_WORK_MERGE = false →
      (__lsm_worker_body ext cookie conn).2.conn.lsm_manager.managerqh
        = conn.lsm_manager.managerqh) := by
  obtain ⟨st1, pre, post, hb⟩ := worker_body_run ext cookie conn hopen
  have hq := workerApp_queues ext cookie st1
  rw [← hb.appPart] at hq
  obtain ⟨hsw, -, happ, hman⟩ := hq
  rw [hb.loopAppq] at happ
  rw [hb.loopManagerq] at hman
  refine ⟨?_, ?_, ?_, ?_, ?_, ?_⟩
  · intro hbit
    rw [hsw]; exact hb.drained hbit
  · intro hbit
    rw [hsw]
    have := hb.loopSwitchq
    rw [hb.skipped hbit] at this
    simpa [pops] using this
  · rcases happ with h | ⟨-, e, h⟩
    · exact Or.inl h
    · exact Or.inr ⟨e, h⟩
  · intro hbits
    rcases happ with h | ⟨h, -⟩
    · exact h
    · rw [hbits] at h; cases h
  · rcases hman with h | ⟨-, e, h⟩
    · exact Or.inl h
    · exact Or.inr ⟨e, h⟩
  · intro hbit
    rcases hman with h | ⟨h, -⟩
    · exact h
    · rw [hbit] at h; cases h

/-- C16 at work: a worker serving all four kinds, two Switch units, two Flush units
and two Merge units queued; the switch queue is emptied, the other queues lose their
heads. -/
theorem C16_one_unit_per_iteration_witness :
    ({ server_run := true
       lsmqh := [(7, ⟨true, 1, [⟨true, 0⟩, ⟨false, 0⟩, ⟨false, 0⟩]⟩)]
       lsm_manager := ⟨[⟨8, 7⟩, ⟨8, 7⟩], [⟨2, 7⟩, ⟨2, 7⟩], [⟨4, 7⟩, ⟨4, 7⟩], 3⟩ }
      : WT_CONNECTION_IMPL).lsmqh.isEmpty = false
    ∧ (__lsm_worker_body quietExternals ⟨2, 15⟩
        { server_run := true
          lsmqh := [(7, ⟨true, 1, [⟨true, 0⟩, ⟨false, 0⟩, ⟨false, 0⟩]⟩)]
          lsm_manager := ⟨[⟨8, 7⟩, ⟨8, 7⟩], [⟨2, 7⟩, ⟨2, 7⟩], [⟨4, 7⟩, ⟨4, 7⟩], 3⟩ }
        ).2.conn.lsm_manager.switchqh = []
    ∧ (__lsm_worker_body quietExternals ⟨2, 15⟩
        { server_run := true
          lsmqh := [(7, ⟨true, 1, [⟨true, 0⟩, ⟨false, 0⟩, ⟨false, 0⟩]⟩)]
          lsm_manager := ⟨[⟨8, 7⟩, ⟨8, 7⟩], [⟨2, 7⟩, ⟨2, 7⟩], [⟨4, 7⟩, ⟨4, 7⟩], 3⟩ }
        ).2.conn.lsm_manager = ⟨[], [⟨2, 7⟩], [⟨4, 7⟩], 3⟩ :=
  ⟨rfl,
    (C16_one_unit_per_iteration quietExternals ⟨2, 15⟩
      { server_run := true
        lsmqh := [(7, ⟨true, 1, [⟨true, 0⟩, ⟨false, 0⟩, ⟨false, 0⟩]⟩)]
        lsm_manager := ⟨[⟨8, 7⟩, ⟨8, 7⟩], [⟨2, 7⟩, ⟨2, 7⟩], [⟨4, 7⟩, ⟨4, 7⟩], 3⟩ }
      rfl).1 (by decide),
    by decide⟩

/-- C15 as amended (kind isolation whatever is on the queues). For every capability
mask, every kind `K` that the mask excludes, every contents of the three queues and
whatever the external functions return, in one run of the body of the worker's loop:
no unit of kind `K` is returned by the pops on the application queue and on the
manager queue; when `K` is Switch nothing is returned from the switch queue. A
worker whose mask contains Switch is returned every unit of the switch queue,
whatever its kind, when a tree is open. -/
theorem C15_kind_isolation_seeded (ext : Externals) (cookie : WT_LSM_WORKER_ARGS)
    (conn : WT_CONNECTION_IMPL) (K : Nat)
    (hK : K = WT_LSM_WORK_SWITCH ∨ K = WT_LSM_WORK_FLUSH ∨ K = WT_LSM_WORK_BLOOM
      ∨ K = WT_LSM_WORK_MERGE)
    (hmask : FLD_ISSET cookie.flags K = false) :
    (∀ u ∈ pops .app (__lsm_worker_body ext cookie conn).2.trace, u.flags ≠ K)
    ∧ (∀ u ∈ pops .manager (__lsm_worker_body ext cookie conn).2.trace, u.flags ≠ K)
    ∧ (K = WT_LSM_WORK_SWITCH → pops .switch (__lsm_worker_body ext cookie conn).2.trace = [])
    ∧ (FLD_ISSET cookie.flags WT_LSM_WORK_SWITCH = true → conn.lsmqh.isEmpty = false →
        pops .switch (__lsm_worker_body ext cookie conn).2.trace = conn.lsm_manager.switchqh)
    := by
  cases hopen : conn.lsmqh.isEmpty with
  | true =>
    rw [worker_body_idle ext cookie conn hopen]
    simp [pops]
  | false =>
    obtain ⟨st1, pre, post, hb⟩ := worker_body_run ext cookie conn hopen
    have htrace := (hb.accounts .switch).1
    have hpost := pops_switch_after post hb.rest.after
    rw [htrace]
    simp only [pops_append, hb.loopAppPops, hb.loopManagerPops, List.nil_append, hpost.1,
      List.append_nil]
    refine ⟨?_, ?_, ?_, ?_⟩
    · intro u hu hflags
      have := hb.rest.appMask u hu
      rw [hflags, hmask] at this
      cases this
    · intro u hu hflags
      obtain ⟨hc, hm⟩ := hb.rest.managerMask u hu
      rw [hflags] at hm
      rcases hK with rfl | rfl | rfl | rfl
      · revert hm; decide
      · revert hm; decide
      · revert hm; decide
      · rw [hmask] at hc; cases hc
    · intro hs
      rw [hs] at hmask
      rw [hb.skipped hmask]
      rfl
    · intro hbit _
      have := hb.loopSwitchq
      rw [hb.drained hbit, List.append_nil] at this
      exact this

/-- C15 as amended, at work: the worker serving only Flush, on queues seeded with
units of other kinds, is returned nothing. -/
theorem C15_kind_isolation_seeded_witness :
    (WT_LSM_WORK_MERGE = WT_LSM_WORK_SWITCH ∨ WT_LSM_WORK_MERGE = WT_LSM_WORK_FLUSH
      ∨ WT_LSM_WORK_MERGE = WT_LSM_WORK_BLOOM ∨ WT_LSM_WORK_MERGE = WT_LSM_WORK_MERGE)
    ∧ FLD_ISSET 2 WT_LSM_WORK_MERGE = false
    ∧ (∀ u ∈ pops .app (__lsm_worker_body quietExternals ⟨2, 2⟩ seededConn).2.trace,
        u.flags ≠ WT_LSM_WORK_MERGE)
    ∧ (∀ u ∈ pops .manager (__lsm_worker_body quietExternals ⟨2, 2⟩ seededConn).2.trace,
        u.flags ≠ WT_LSM_WORK_MERGE) :=
  have h := C15_kind_isolation_seeded quietExternals ⟨2, 2⟩ seededConn WT_LSM_WORK_MERGE
    (by decide) (by decide)
  ⟨by decide, by decide, h.1, h.2.1⟩

/-- C15 as stated fails on the switch queue: the worker serving only Switch, with a
unit of kind Flush seeded on the switch queue, is returned that unit by its pop and
passes its tree to `__wt_lsm_tree_switch`, although Flush is not in its mask. -/
theorem C15_kind_isolation_seeded_counterexample :
    FLD_ISSET 8 WT_LSM_WORK_FLUSH = false
    ∧ seededConn.lsm_manager.switchqh = [⟨WT_LSM_WORK_FLUSH, 7⟩]
    ∧ __lsm_worker_body quietExternals ⟨1, 8⟩ seededConn
      = (.next, ⟨{ seededConn with lsm_manager := ⟨[], [⟨4, 7⟩], [⟨2, 7⟩], 3⟩ },
          [.pop .switch ⟨WT_LSM_WORK_FLUSH, 7⟩, .tree_switch 7 0]⟩) := by
  decide

/-- C13 (the count of workers after shutdown). From a manager with no worker, the
start-up of `__lsm_worker_manager` succeeds and counts three workers, with the
cookies of the switch worker (id 1) and of the generic worker (id 2). With the
server-running flag clear the manager thread returns without writing the count, and
each of the two `__lsm_worker` threads returns after decrementing it once: the count
is `1` when all three have returned, not `0`. -/
theorem C13_worker_count_after_shutdown :
    __lsm_worker_manager quietStartup (fun _ _ => 0) 4 { conn := stoppedConn, trace := [] }
      = (.returned 0,
          { conn := { stoppedConn with lsm_manager := emptyManager 3 }, trace := [] },
          [⟨1, 8⟩, ⟨2, 15⟩])
    ∧ __lsm_worker quietExternals ⟨1, 8⟩ 4
        { conn := { stoppedConn with lsm_manager := emptyManager 3 }, trace := [] }
      = (.returned 0,
          { conn := { stoppedConn with lsm_manager := emptyManager 2 }, trace := [] })
    ∧ __lsm_worker quietExternals ⟨2, 15⟩ 4
        { conn := { stoppedConn with lsm_manager := emptyManager 2 }, trace := [] }
      = (.returned 0,
          { conn := { stoppedConn with lsm_manager := emptyManager 1 }, trace := [] }) := by
  decide

end LsmManager
